import Mathlib

/-!
# Verification of the IPFS storage client (`node-client/ipfs_client.py`)

A shallow embedding of the repository's content-addressable storage client:
the hosted/self-hosted HTTP adapter `IPFSClient`, the filesystem-backed
`MockIPFSClient`, and the backend selector `get_ipfs_client`.

Python strings are modelled as `List Char`, byte strings as `List Nat`
(each entry `< 256`).  Python dictionaries are modelled as insertion-ordered
association lists with in-place update, matching `dict` semantics.
-/

set_option maxHeartbeats 1000000

namespace BC

/-- Python strings in the embedding. -/
abbrev PyStr := List Char

/-- Byte strings (`bytes`) in the embedding: each entry is a byte value. -/
abbrev Bytes := List Nat

/-! ## Python string primitives used by the source -/

/-- `str.replace(old, new)`: replace every non-overlapping occurrence of
`old` left-to-right.  The source only calls this with non-empty `old`
(`'ipfs://'`); for empty `old` this model leaves the string unchanged. -/
def pyReplaceF (fuel : Nat) (s old new : PyStr) : PyStr :=
  match fuel, s, old with
  | 0, s, _ => s
  | _ + 1, [], _ => []
  | _ + 1, c :: rest, [] => c :: rest
  | fuel + 1, c :: rest, o :: os =>
    if (o :: os).isPrefixOf (c :: rest) then
      new ++ pyReplaceF fuel (rest.drop os.length) (o :: os) new
    else
      c :: pyReplaceF fuel rest (o :: os) new

/-- Every recursive step of `pyReplaceF` consumes at least one character, so
`s.length` fuel always suffices. -/
def pyReplace (s old new : PyStr) : PyStr := pyReplaceF s.length s old new

/-- The whitespace predicate of Python's `str.strip()` (restricted to the
code points below U+0100; the classes beyond that never appear here). -/
def isPySpace (c : Char) : Bool :=
  (9 ≤ c.toNat && c.toNat ≤ 13) || c.toNat == 32 ||
    (28 ≤ c.toNat && c.toNat ≤ 31) || c.toNat == 0x85 || c.toNat == 0xa0

/-- `str.strip()`: remove leading and trailing whitespace. -/
def pyStrip (s : PyStr) : PyStr :=
  ((s.dropWhile isPySpace).reverse.dropWhile isPySpace).reverse

/-- The CID-normalisation idiom of the source:
`cid.replace('ipfs://', '').strip()`. -/
def normalizeCid (cid : PyStr) : PyStr :=
  pyStrip (pyReplace cid "ipfs://".data [])

/-- Truthiness of an optional string (`os.getenv` result): `None` and the
empty string are falsy. -/
def truthy : Option PyStr → Bool
  | none => false
  | some s => !s.isEmpty

/-! ## Python `dict` as an insertion-ordered association list -/

/-- `d[k]` lookup returning `none` when absent (`k in d` is `isSome`). -/
def alookup (k : PyStr) : List (PyStr × α) → Option α
  | [] => none
  | (k', v) :: t => if k' = k then some v else alookup k t

/-- `d[k] = v`: update in place if present, else append (dict order). -/
def ainsert (k : PyStr) (v : α) : List (PyStr × α) → List (PyStr × α)
  | [] => [(k, v)]
  | (k', v') :: t => if k' = k then (k, v) :: t else (k', v') :: ainsert k v t

@[simp] theorem alookup_ainsert_self (k : PyStr) (v : α) (l : List (PyStr × α)) :
    alookup k (ainsert k v l) = some v := by
  induction l with
  | nil => simp [ainsert, alookup]
  | cons h t ih =>
    obtain ⟨k', v'⟩ := h
    by_cases hk : k' = k <;> simp [ainsert, alookup, hk, ih]

theorem alookup_ainsert_ne (k k' : PyStr) (v : α) (l : List (PyStr × α))
    (h : k' ≠ k) : alookup k' (ainsert k v l) = alookup k' l := by
  induction l with
  | nil => simp [ainsert, alookup, Ne.symm h]
  | cons hd t ih =>
    obtain ⟨k'', v''⟩ := hd
    by_cases hk : k'' = k
    · subst hk
      simp only [ainsert, if_pos rfl, alookup]
      rw [if_neg (fun hh => h hh.symm), if_neg (fun hh => h hh.symm)]
    · simp only [ainsert, if_neg hk, alookup]
      by_cases hk2 : k'' = k' <;> simp [hk2, ih]

/-! ## SHA-256 (`hashlib.sha256(...).hexdigest()`)

A direct transcription of FIPS 180-4 over byte lists, with 32-bit words as
`Nat` reduced by `% 2^32`. -/

/-- Truncate to a 32-bit word. -/
def w32 (n : Nat) : Nat := n % 4294967296

/-- Right-rotation of a 32-bit word. -/
def rotr32 (n x : Nat) : Nat := w32 ((x >>> n) ||| (x <<< (32 - n)))

/-- Bitwise complement of a 32-bit word. -/
def not32 (x : Nat) : Nat := 4294967295 - w32 x

def ch32 (x y z : Nat) : Nat := (x &&& y) ^^^ (not32 x &&& z)

def maj32 (x y z : Nat) : Nat := ((x &&& y) ^^^ (x &&& z)) ^^^ (y &&& z)

def bigSigma0 (x : Nat) : Nat := rotr32 2 x ^^^ rotr32 13 x ^^^ rotr32 22 x

def bigSigma1 (x : Nat) : Nat := rotr32 6 x ^^^ rotr32 11 x ^^^ rotr32 25 x

def smallSigma0 (x : Nat) : Nat := rotr32 7 x ^^^ rotr32 18 x ^^^ (x >>> 3)

def smallSigma1 (x : Nat) : Nat := rotr32 17 x ^^^ rotr32 19 x ^^^ (x >>> 10)

/-- The 64 SHA-256 round constants. -/
def sha256K : List Nat :=
  [1116352408, 1899447441, 3049323471, 3921009573, 961987163, 1508970993,
   2453635748, 2870763221, 3624381080, 310598401, 607225278, 1426881987,
   1925078388, 2162078206, 2614888103, 3248222580, 3835390401, 4022224774,
   264347078, 604807628, 770255983, 1249150122, 1555081692, 1996064986,
   2554220882, 2821834349, 2952996808, 3210313671, 3336571891, 3584528711,
   113926993, 338241895, 666307205, 773529912, 1294757372, 1396182291,
   1695183700, 1986661051, 2177026350, 2456956037, 2730485921, 2820302411,
   3259730800, 3345764771, 3516065817, 3600352804, 4094571909, 275423344,
   430227734, 506948616, 659060556, 883997877, 958139571, 1322822218,
   1537002063, 1747873779, 1955562222, 2024104815, 2227730452, 2361852424,
   2428436474, 2756734187, 3204031479, 3329325298]

/-- Initial hash state. -/
def sha256H0 : List Nat :=
  [1779033703, 3144134277, 1013904242, 2773480762,
   1359893119, 2600822924, 528734635, 1541459225]

/-- Big-endian byte encoding of `v` in `n` bytes. -/
def beBytes : Nat → Nat → List Nat
  | 0, _ => []
  | n + 1, v => beBytes n (v / 256) ++ [v % 256]

/-- SHA-256 message padding: append `0x80`, zeros to 56 mod 64, then the
bit length as 8 big-endian bytes. -/
def sha256Pad (msg : Bytes) : Bytes :=
  msg ++ 0x80 :: List.replicate ((120 - (msg.length + 1) % 64) % 64) 0 ++
    beBytes 8 (8 * msg.length)

/-- Pack bytes into big-endian 32-bit words. -/
def bytesToWords : Bytes → List Nat
  | a :: b :: c :: d :: rest => (((a * 256 + b) * 256 + c) * 256 + d) :: bytesToWords rest
  | _ => []

/-- One message-schedule extension step: append `W[t]` from the last 16. -/
def scheduleStep (w : List Nat) : List Nat :=
  w ++ [w32 (smallSigma1 (w.getD (w.length - 2) 0) + w.getD (w.length - 7) 0 +
             smallSigma0 (w.getD (w.length - 15) 0) + w.getD (w.length - 16) 0)]

/-- Iterate the schedule extension. -/
def extendSchedule : Nat → List Nat → List Nat
  | 0, w => w
  | n + 1, w => extendSchedule n (scheduleStep w)

/-- The eight working registers. -/
structure Regs where
  a : Nat
  b : Nat
  c : Nat
  d : Nat
  e : Nat
  f : Nat
  g : Nat
  h : Nat

/-- One compression round. -/
def sha256Round (r : Regs) (k w : Nat) : Regs :=
  let t1 := w32 (r.h + bigSigma1 r.e + ch32 r.e r.f r.g + k + w)
  let t2 := w32 (bigSigma0 r.a + maj32 r.a r.b r.c)
  ⟨w32 (t1 + t2), r.a, r.b, r.c, w32 (r.d + t1), r.e, r.f, r.g⟩

/-- Compress one 64-byte block into the hash state. -/
def sha256Compress (hs : List Nat) (block : Bytes) : List Nat :=
  let ws := extendSchedule 48 (bytesToWords block)
  let r0 : Regs := ⟨hs.getD 0 0, hs.getD 1 0, hs.getD 2 0, hs.getD 3 0,
                    hs.getD 4 0, hs.getD 5 0, hs.getD 6 0, hs.getD 7 0⟩
  let rf := (sha256K.zip ws).foldl (fun r kw => sha256Round r kw.1 kw.2) r0
  [w32 (hs.getD 0 0 + rf.a), w32 (hs.getD 1 0 + rf.b), w32 (hs.getD 2 0 + rf.c),
   w32 (hs.getD 3 0 + rf.d), w32 (hs.getD 4 0 + rf.e), w32 (hs.getD 5 0 + rf.f),
   w32 (hs.getD 6 0 + rf.g), w32 (hs.getD 7 0 + rf.h)]

/-- Fold the compression over successive 64-byte blocks (fuel-indexed; a
step consumes at least one byte, so `msg.length` fuel always suffices). -/
def sha256ProcessF (fuel : Nat) (hs : List Nat) (msg : Bytes) : List Nat :=
  match fuel, msg with
  | 0, _ => hs
  | _ + 1, [] => hs
  | fuel + 1, m :: rest =>
    sha256ProcessF fuel (sha256Compress hs ((m :: rest).take 64)) ((m :: rest).drop 64)

def sha256Process (hs : List Nat) (msg : Bytes) : List Nat :=
  sha256ProcessF msg.length hs msg

/-- SHA-256 digest as 32 bytes. -/
def sha256 (msg : Bytes) : Bytes :=
  (sha256Process sha256H0 (sha256Pad msg)).foldr (fun w acc => beBytes 4 w ++ acc) []

/-- Lowercase hex digit. -/
def hexChar (n : Nat) : Char := if n < 10 then Char.ofNat (48 + n) else Char.ofNat (87 + n)

/-- Two-digit lowercase hex of a byte. -/
def byteHex (b : Nat) : List Char := [hexChar (b / 16), hexChar (b % 16)]

/-- `hashlib.sha256(data).hexdigest()`. -/
def sha256Hexdigest (msg : Bytes) : PyStr := (sha256 msg).foldr (fun b acc => byteHex b ++ acc) []

/-! ## JSON values (`json.dumps` / `json.loads`)

JSON documents as handled by the client.  Numbers are modelled as integers;
the one restriction of the model is that float literals are absent (the
parser rejects a fraction or exponent part instead of producing a float).
Strings are lists of unicode scalar values. -/

mutual

inductive Json where
  | null : Json
  | bool : Bool → Json
  | int : Int → Json
  | str : PyStr → Json
  | arr : JsonArr → Json
  | obj : JsonObj → Json

inductive JsonArr where
  | nil : JsonArr
  | cons : Json → JsonArr → JsonArr

inductive JsonObj where
  | nil : JsonObj
  | cons : PyStr → Json → JsonObj → JsonObj

end

/-- Decimal digit character. -/
def digitChar (n : Nat) : Char := Char.ofNat (48 + n)

/-- Decimal digits of a natural number (fuel-indexed division loop). -/
def natDecF : Nat → Nat → PyStr
  | 0, _ => []
  | fuel + 1, n => if n < 10 then [digitChar n] else natDecF fuel (n / 10) ++ [digitChar (n % 10)]

/-- `str(n)` for a natural number. -/
def natDec (n : Nat) : PyStr := natDecF (n + 1) n

/-- `str(n)` for a Python int. -/
def intDec (n : Int) : PyStr := if n < 0 then '-' :: natDec n.natAbs else natDec n.toNat

/-- Four lowercase hex digits (`'\\u%04x'`). -/
def hex4 (n : Nat) : PyStr :=
  [hexChar (n / 4096 % 16), hexChar (n / 256 % 16), hexChar (n / 16 % 16), hexChar (n % 16)]

/-- `json.dumps` escaping of one character with `ensure_ascii=True`:
`"` and `\` and the five C shortcuts, `\uXXXX` for other control or
non-ASCII characters, surrogate pairs above the BMP. -/
def escapeChar (c : Char) : PyStr :=
  if c = '"' then ['\\', '"']
  else if c = '\\' then ['\\', '\\']
  else if c.toNat = 8 then ['\\', 'b']
  else if c.toNat = 9 then ['\\', 't']
  else if c.toNat = 10 then ['\\', 'n']
  else if c.toNat = 12 then ['\\', 'f']
  else if c.toNat = 13 then ['\\', 'r']
  else if c.toNat < 0x20 ∨ 0x7e < c.toNat then
    if c.toNat < 0x10000 then '\\' :: 'u' :: hex4 c.toNat
    else
      '\\' :: 'u' :: hex4 (0xd800 + (c.toNat - 0x10000) / 0x400) ++
        '\\' :: 'u' :: hex4 (0xdc00 + (c.toNat - 0x10000) % 0x400)
  else [c]

def escapeStr : PyStr → PyStr
  | [] => []
  | c :: t => escapeChar c ++ escapeStr t

/-- A JSON string literal: quote, escaped body, quote. -/
def strDumps (s : PyStr) : PyStr := '"' :: escapeStr s ++ ['"']

mutual

/-- `json.dumps` with the default separators `', '` and `': '`. -/
def dumpsVal : Json → PyStr
  | .null => "null".data
  | .bool true => "true".data
  | .bool false => "false".data
  | .int n => intDec n
  | .str s => strDumps s
  | .arr .nil => ['[', ']']
  | .arr (.cons h t) => '[' :: dumpsVal h ++ dumpsArr t ++ [']']
  | .obj .nil => ['\x7b', '\x7d']
  | .obj (.cons k v t) =>
    '\x7b' :: strDumps k ++ ':' :: ' ' :: dumpsVal v ++ dumpsObj t ++ ['\x7d']

/-- Remaining array elements, each preceded by `", "`. -/
def dumpsArr : JsonArr → PyStr
  | .nil => []
  | .cons h t => ',' :: ' ' :: dumpsVal h ++ dumpsArr t

/-- Remaining object entries, each preceded by `", "`. -/
def dumpsObj : JsonObj → PyStr
  | .nil => []
  | .cons k v t => ',' :: ' ' :: strDumps k ++ ':' :: ' ' :: dumpsVal v ++ dumpsObj t

end

/-- UTF-8 encoding of one scalar value (`str.encode()`). -/
def utf8EncodeChar (c : Char) : Bytes :=
  let n := c.toNat
  if n < 0x80 then [n]
  else if n < 0x800 then [0xc0 + n / 64, 0x80 + n % 64]
  else if n < 0x10000 then [0xe0 + n / 4096, 0x80 + n / 64 % 64, 0x80 + n % 64]
  else [0xf0 + n / 262144, 0x80 + n / 4096 % 64, 0x80 + n / 64 % 64, 0x80 + n % 64]

/-- `str.encode()`. -/
def utf8Encode : PyStr → Bytes
  | [] => []
  | c :: t => utf8EncodeChar c ++ utf8Encode t

/-! ## `json.loads` -/

/-- JSON insignificant whitespace (Python's `WHITESPACE_STR`). -/
def isJsonWs (w : Char) : Bool := w == ' ' || w == '\n' || w == '\t' || w == '\r'

def jSkipWs (s : PyStr) : PyStr := s.dropWhile isJsonWs

/-- Value of a hex digit (either case). -/
def hexVal (c : Char) : Option Nat :=
  if 48 ≤ c.toNat ∧ c.toNat ≤ 57 then some (c.toNat - 48)
  else if 97 ≤ c.toNat ∧ c.toNat ≤ 102 then some (c.toNat - 87)
  else if 65 ≤ c.toNat ∧ c.toNat ≤ 70 then some (c.toNat - 55)
  else none

/-- Read exactly four hex digits. -/
def parseHex4 : PyStr → Option (Nat × PyStr)
  | a :: b :: c :: d :: rest => do
    let va ← hexVal a
    let vb ← hexVal b
    let vc ← hexVal c
    let vd ← hexVal d
    pure (((va * 16 + vb) * 16 + vc) * 16 + vd, rest)
  | _ => none

/-- The two-character escapes of the scanner (`ESCAPE` table). -/
def escDecode (e : Char) : Option Char :=
  if e = '"' then some '"'
  else if e = '\\' then some '\\'
  else if e = '/' then some '/'
  else if e = 'b' then some '\x08'
  else if e = 'f' then some '\x0c'
  else if e = 'n' then some '\n'
  else if e = 'r' then some '\x0d'
  else if e = 't' then some '\t'
  else none

/-- Decode one escape sequence after the backslash: a `\uXXXX` escape
(with surrogate-pair recombination; a lone surrogate is rejected, since
the model's strings hold unicode scalar values only) or a two-character
escape. -/
def scanEscape : PyStr → Option (Char × PyStr)
  | [] => none
  | e :: r1 =>
    if e = 'u' then
      match parseHex4 r1 with
      | none => none
      | some (n, r2) =>
        if 0xd800 ≤ n ∧ n ≤ 0xdbff then
          match r2 with
          | a :: b :: r3 =>
            if a = '\\' ∧ b = 'u' then
              match parseHex4 r3 with
              | none => none
              | some (n2, r4) =>
                if 0xdc00 ≤ n2 ∧ n2 ≤ 0xdfff then
                  some (Char.ofNat (0x10000 + (n - 0xd800) * 0x400 + (n2 - 0xdc00)), r4)
                else none
            else none
          | _ => none
        else if 0xdc00 ≤ n ∧ n ≤ 0xdfff then none
        else some (Char.ofNat n, r2)
    else
      match escDecode e with
      | none => none
      | some ec => some (ec, r1)

/-- Body of a string literal after the opening quote (`py_scanstring`,
strict mode: raw control characters are rejected). -/
def parseStrF : Nat → PyStr → Option (PyStr × PyStr)
  | 0, _ => none
  | fuel + 1, s =>
    match s with
    | [] => none
    | c :: r =>
      if c = '"' then some ([], r)
      else if c = '\\' then
        match scanEscape r with
        | none => none
        | some (ec, r1) =>
          match parseStrF fuel r1 with
          | none => none
          | some (tl, rest) => some (ec :: tl, rest)
      else if c.toNat < 0x20 then none
      else
        match parseStrF fuel r with
        | none => none
        | some (tl, rest) => some (c :: tl, rest)

def isDigit (c : Char) : Bool := 48 ≤ c.toNat && c.toNat ≤ 57

/-- Numeric value of a digit run. -/
def digitsVal (s : PyStr) : Nat := s.foldl (fun a c => a * 10 + (c.toNat - 48)) 0

/-- Whether `s` would extend a just-parsed integer literal (a fraction or
exponent part makes a float, which the model rejects). -/
def numCont (s : PyStr) : Bool :=
  match s with
  | [] => false
  | c :: _ => c == '.' || c == 'e' || c == 'E'

/-- Unsigned integer literal per Python's `NUMBER_RE` (`0|[1-9]\d*`),
rejecting a following fraction/exponent (no floats in the model). -/
def parseUInt (s : PyStr) : Option (Nat × PyStr) :=
  match s with
  | [] => none
  | c :: r =>
    if c = '0' then if numCont r then none else some (0, r)
    else if isDigit c then
      let ds := r.takeWhile isDigit
      let rest := r.dropWhile isDigit
      if numCont rest then none else some (digitsVal (c :: ds), rest)
    else none

/-- Integer literal with optional sign. -/
def parseNum (s : PyStr) : Option (Json × PyStr) :=
  match s with
  | [] => none
  | c :: r =>
    if c = '-' then (parseUInt r).map (fun p => (Json.int (-(p.1 : Int)), p.2))
    else (parseUInt (c :: r)).map (fun p => (Json.int (p.1 : Int), p.2))

mutual

/-- Parse one JSON value after skipping leading whitespace. -/
def parseVal : Nat → PyStr → Option (Json × PyStr)
  | 0, _ => none
  | fuel + 1, s =>
    match jSkipWs s with
    | [] => none
    | c :: r =>
      if c = '"' then (parseStrF (r.length + 1) r).map (fun p => (Json.str p.1, p.2))
      else if c = '\x7b' then parseObjBody fuel r
      else if c = '[' then parseArrBody fuel r
      else if c = 'n' ∧ "ull".data.isPrefixOf r then some (Json.null, r.drop 3)
      else if c = 't' ∧ "rue".data.isPrefixOf r then some (Json.bool true, r.drop 3)
      else if c = 'f' ∧ "alse".data.isPrefixOf r then some (Json.bool false, r.drop 4)
      else parseNum (c :: r)

/-- Array contents after `[`: empty array or first element then the rest. -/
def parseArrBody : Nat → PyStr → Option (Json × PyStr)
  | 0, _ => none
  | fuel + 1, s =>
    match jSkipWs s with
    | [] => none
    | c :: r =>
      if c = ']' then some (Json.arr JsonArr.nil, r)
      else
        match parseVal fuel (c :: r) with
        | none => none
        | some (v, r1) =>
          match parseArrRest fuel r1 with
          | none => none
          | some (tl, rest) => some (Json.arr (JsonArr.cons v tl), rest)

/-- After an array element: `]` ends, `,` continues. -/
def parseArrRest : Nat → PyStr → Option (JsonArr × PyStr)
  | 0, _ => none
  | fuel + 1, s =>
    match jSkipWs s with
    | [] => none
    | c :: r =>
      if c = ']' then some (JsonArr.nil, r)
      else if c = ',' then
        match parseVal fuel r with
        | none => none
        | some (v, r1) =>
          match parseArrRest fuel r1 with
          | none => none
          | some (tl, rest) => some (JsonArr.cons v tl, rest)
      else none

/-- Object contents after the opening brace. -/
def parseObjBody : Nat → PyStr → Option (Json × PyStr)
  | 0, _ => none
  | fuel + 1, s =>
    match jSkipWs s with
    | [] => none
    | c :: r =>
      if c = '\x7d' then some (Json.obj JsonObj.nil, r)
      else if c = '"' then
        match parseStrF (r.length + 1) r with
        | none => none
        | some (k, r1) =>
          match jSkipWs r1 with
          | [] => none
          | c2 :: r2 =>
            if c2 = ':' then
              match parseVal fuel r2 with
              | none => none
              | some (v, r3) =>
                match parseObjRest fuel r3 with
                | none => none
                | some (tl, rest) => some (Json.obj (JsonObj.cons k v tl), rest)
            else none
      else none

/-- After an object entry: `}` ends, `,` continues with another entry. -/
def parseObjRest : Nat → PyStr → Option (JsonObj × PyStr)
  | 0, _ => none
  | fuel + 1, s =>
    match jSkipWs s with
    | [] => none
    | c :: r =>
      if c = '\x7d' then some (JsonObj.nil, r)
      else if c = ',' then
        match jSkipWs r with
        | [] => none
        | c1 :: r1 =>
          if c1 = '"' then
            match parseStrF (r1.length + 1) r1 with
            | none => none
            | some (k, r2) =>
              match jSkipWs r2 with
              | [] => none
              | c2 :: r3 =>
                if c2 = ':' then
                  match parseVal fuel r3 with
                  | none => none
                  | some (v, r4) =>
                    match parseObjRest fuel r4 with
                    | none => none
                    | some (tl, rest) => some (JsonObj.cons k v tl, rest)
                else none
          else none
      else none

end

/-- `json.loads`: parse one document, then tolerate only trailing
whitespace. -/
def loads (s : PyStr) : Option Json :=
  match parseVal (s.length + 1) s with
  | some (v, rest) => if jSkipWs rest = [] then some v else none
  | none => none

/-! ## UTF-8 decoding (`open(path, 'r')` with the default codec) -/

/-- Strict UTF-8 decoding; `none` models a raised `UnicodeDecodeError`. -/
def utf8DecodeF : Nat → Bytes → Option PyStr
  | 0, _ => none
  | _ + 1, [] => some []
  | fuel + 1, b :: rest =>
    if b < 0x80 then (utf8DecodeF fuel rest).map (Char.ofNat b :: ·)
    else if b < 0xc2 then none
    else if b < 0xe0 then
      match rest with
      | b2 :: r2 =>
        if 0x80 ≤ b2 ∧ b2 < 0xc0 then
          (utf8DecodeF fuel r2).map (Char.ofNat ((b - 0xc0) * 64 + (b2 - 0x80)) :: ·)
        else none
      | _ => none
    else if b < 0xf0 then
      match rest with
      | b2 :: b3 :: r3 =>
        let v := (b - 0xe0) * 4096 + (b2 - 0x80) * 64 + (b3 - 0x80)
        if 0x80 ≤ b2 ∧ b2 < 0xc0 ∧ 0x80 ≤ b3 ∧ b3 < 0xc0 ∧ 0x800 ≤ v ∧
            ¬(0xd800 ≤ v ∧ v ≤ 0xdfff) then
          (utf8DecodeF fuel r3).map (Char.ofNat v :: ·)
        else none
      | _ => none
    else if b < 0xf5 then
      match rest with
      | b2 :: b3 :: b4 :: r4 =>
        let v := (b - 0xf0) * 262144 + (b2 - 0x80) * 4096 + (b3 - 0x80) * 64 + (b4 - 0x80)
        if 0x80 ≤ b2 ∧ b2 < 0xc0 ∧ 0x80 ≤ b3 ∧ b3 < 0xc0 ∧ 0x80 ≤ b4 ∧ b4 < 0xc0 ∧
            0x10000 ≤ v ∧ v < 0x110000 then
          (utf8DecodeF fuel r4).map (Char.ofNat v :: ·)
        else none
      | _ => none
    else none

/-- Each decoding step consumes at least one byte, so length fuel suffices. -/
def utf8Decode (bs : Bytes) : Option PyStr := utf8DecodeF (bs.length + 1) bs

/-! ## Exceptions

Python exceptions that the client's code paths can raise. -/

inductive PyErr where
  /-- An `httpx` transport exception (connect/read/timeout error). -/
  | transport (msg : PyStr)
  /-- `KeyError` (missing key in a response payload). -/
  | keyError (k : PyStr)
  /-- `ValueError` (also `JSONDecodeError` and `UnicodeDecodeError`). -/
  | valueError
deriving DecidableEq

/-! ## `MockIPFSClient`

The mock's observable state: the storage directory path, the directory's
contents (one file per stored blob plus the `metadata.json` sidecar), and
the in-memory metadata index.  Caller-side files (upload sources, download
destinations) live in a separate `FS` map passed per call. -/

/-- A flat file-name → content view of a directory. -/
abbrev FS := List (PyStr × Bytes)

/-- One metadata-index entry: `{'name': ..., 'size': ..., 'type': ...}`. -/
structure MockMeta where
  name : PyStr
  size : Nat
  type : PyStr
deriving DecidableEq

structure MockIPFSClient where
  storage_dir : PyStr
  dir : FS
  metadata : List (PyStr × MockMeta)
deriving DecidableEq

/-- `MockIPFSClient._compute_hash`: `"Qm" + sha256(data).hexdigest()[:44]`. -/
def computeHash (data : Bytes) : PyStr := 'Q' :: 'm' :: (sha256Hexdigest data).take 44

/-- Indentation prefix used by `json.dump(..., indent=2)`. -/
def nlIndent (lvl : Nat) : PyStr := '\n' :: List.replicate (2 * lvl) ' '

mutual

/-- `json.dumps` with `indent=2` (the sidecar file format). -/
def dumpsIndVal (lvl : Nat) : Json → PyStr
  | .arr .nil => ['[', ']']
  | .arr (.cons h t) =>
    '[' :: nlIndent (lvl + 1) ++ dumpsIndVal (lvl + 1) h ++ dumpsIndArr (lvl + 1) t ++
      nlIndent lvl ++ [']']
  | .obj .nil => ['\x7b', '\x7d']
  | .obj (.cons k v t) =>
    '\x7b' :: nlIndent (lvl + 1) ++ strDumps k ++ ':' :: ' ' :: dumpsIndVal (lvl + 1) v ++
      dumpsIndObj (lvl + 1) t ++ nlIndent lvl ++ ['\x7d']
  | v => dumpsVal v

def dumpsIndArr (lvl : Nat) : JsonArr → PyStr
  | .nil => []
  | .cons h t => ',' :: nlIndent lvl ++ dumpsIndVal lvl h ++ dumpsIndArr lvl t

def dumpsIndObj (lvl : Nat) : JsonObj → PyStr
  | .nil => []
  | .cons k v t =>
    ',' :: nlIndent lvl ++ strDumps k ++ ':' :: ' ' :: dumpsIndVal lvl v ++ dumpsIndObj lvl t

end

/-- One metadata entry as a JSON object. -/
def metaToJson (m : MockMeta) : Json :=
  .obj (.cons "name".data (.str m.name)
    (.cons "size".data (.int m.size)
      (.cons "type".data (.str m.type) .nil)))

def indexToJson : List (PyStr × MockMeta) → JsonObj
  | [] => .nil
  | (k, m) :: t => .cons k (metaToJson m) (indexToJson t)

/-- The bytes `_save_metadata` writes (`json.dump(self.metadata, f, indent=2)`). -/
def metadataFileBytes (md : List (PyStr × MockMeta)) : Bytes :=
  utf8Encode (dumpsIndVal 0 (.obj (indexToJson md)))

/-- `MockIPFSClient._save_metadata`: write the index to the sidecar file
inside the storage directory. -/
def MockIPFSClient.saveMetadata (st : MockIPFSClient) : MockIPFSClient :=
  { st with dir := ainsert "metadata.json".data (metadataFileBytes st.metadata) st.dir }

/-- `Path(p).name`: the final path component. -/
def pathName (p : PyStr) : PyStr :=
  p.foldl (fun acc c => if c = '/' then [] else acc ++ [c]) []

/-- Python `a or b` on an optional string (`None` and `''` are falsy). -/
def pyOrStr (a : Option PyStr) (b : PyStr) : PyStr :=
  match a with
  | none => b
  | some s => if s.isEmpty then b else s

/-- `MockIPFSClient.upload_file`. -/
def MockIPFSClient.upload_file (st : MockIPFSClient) (fs : FS) (filePath : PyStr)
    (name : Option PyStr) : Option PyStr × MockIPFSClient :=
  match alookup filePath fs with
  | none => (none, st)
  | some data =>
    let cid := computeHash data
    let st1 := { st with dir := ainsert cid data st.dir }
    let st2 := { st1 with
      metadata := ainsert cid ⟨pyOrStr name (pathName filePath), data.length, "file".data⟩
        st1.metadata }
    (some cid, st2.saveMetadata)

/-- `MockIPFSClient.upload_json`. -/
def MockIPFSClient.upload_json (st : MockIPFSClient) (data : Json) (name : PyStr) :
    Option PyStr × MockIPFSClient :=
  let jsonBytes := utf8Encode (dumpsVal data)
  let cid := computeHash jsonBytes
  let st1 := { st with dir := ainsert cid jsonBytes st.dir }
  let st2 := { st1 with metadata := ainsert cid ⟨name, jsonBytes.length, "json".data⟩ st1.metadata }
  (some cid, st2.saveMetadata)

/-- `MockIPFSClient.download_file`: normalize the CID, look the blob up in
the storage directory, copy it to the output path. -/
def MockIPFSClient.download_file (st : MockIPFSClient) (fs : FS) (cid outputPath : PyStr) :
    Bool × FS :=
  let c := normalizeCid cid
  match alookup c st.dir with
  | none => (false, fs)
  | some data => (true, ainsert outputPath data fs)

/-- `MockIPFSClient.download_json`: normalize, look up, decode and parse.
A decode or parse failure raises (`Except.error`), as in the source, which
has no handler here. -/
def MockIPFSClient.download_json (st : MockIPFSClient) (cid : PyStr) :
    Except PyErr (Option Json) :=
  let c := normalizeCid cid
  match alookup c st.dir with
  | none => .ok none
  | some data =>
    match utf8Decode data with
    | none => .error .valueError
    | some s =>
      match loads s with
      | none => .error .valueError
      | some v => .ok (some v)

/-- `MockIPFSClient.get_gateway_url`: `f"file://{self.storage_dir}/{cid}"`
(the CID is used verbatim — no normalization in this method). -/
def MockIPFSClient.get_gateway_url (st : MockIPFSClient) (cid : PyStr) : PyStr :=
  "file://".data ++ st.storage_dir ++ '/' :: cid

/-- `MockIPFSClient.test_connection`. -/
def MockIPFSClient.test_connection (_st : MockIPFSClient) : Bool := true

/-- The methods `class MockIPFSClient` defines, in source order. -/
def MockIPFSClient.surface : List String :=
  ["upload_file", "upload_json", "download_file", "download_json",
   "get_gateway_url", "test_connection"]

/-! ## `IPFSClient` (hosted Pinata / self-hosted node adapter)

Each operation takes a network oracle `Net` deciding the outcome of every
HTTP request (a response, or a raised transport exception) and returns its
Python result inside `Except PyErr` — `Except.error` models an exception
escaping the method — together with the list of HTTP requests it issued. -/

/-- The configuration the constructor reads from the environment. -/
structure Env where
  pinata_jwt : Option PyStr
  pinata_api_key : Option PyStr
  pinata_secret : Option PyStr
  pinata_gateway : Option PyStr
  ipfs_api_url : Option PyStr
  ipfs_gateway : Option PyStr

/-- The attributes `IPFSClient.__init__` sets (each group only exists on
its branch of `use_pinata`). -/
structure IPFSClient where
  use_pinata : Bool
  pinata_jwt : Option PyStr
  pinata_api_key : Option PyStr
  pinata_secret : Option PyStr
  pinata_gateway : Option PyStr
  base_url : Option PyStr
  ipfs_api_url : Option PyStr
  ipfs_gateway : Option PyStr

/-- `IPFSClient.__init__(use_pinata)` under environment `env`. -/
def IPFSClient.init (env : Env) (use_pinata : Bool) : IPFSClient :=
  if use_pinata then
    { use_pinata := true,
      pinata_jwt := env.pinata_jwt,
      pinata_api_key := env.pinata_api_key,
      pinata_secret := env.pinata_secret,
      pinata_gateway := some (env.pinata_gateway.getD "https://gateway.pinata.cloud".data),
      base_url := some "https://api.pinata.cloud".data,
      ipfs_api_url := none, ipfs_gateway := none }
  else
    { use_pinata := false, pinata_jwt := none, pinata_api_key := none, pinata_secret := none,
      pinata_gateway := none, base_url := none,
      ipfs_api_url := some (env.ipfs_api_url.getD "http://localhost:5001".data),
      ipfs_gateway := some (env.ipfs_gateway.getD "http://localhost:8080".data) }

/-- The authentication headers `_get_headers` returns. -/
inductive AuthHeaders where
  | bearer (jwt : PyStr)
  | apiKeyPair (key secret : PyStr)
  | noAuth
deriving DecidableEq

/-- `IPFSClient._get_headers`: bearer token first, else key/secret pair,
else no headers (Python truthiness: `None` and `''` are falsy). -/
def IPFSClient.get_headers (c : IPFSClient) : AuthHeaders :=
  if truthy c.pinata_jwt then .bearer (c.pinata_jwt.getD [])
  else if truthy c.pinata_api_key ∧ truthy c.pinata_secret then
    .apiKeyPair (c.pinata_api_key.getD []) (c.pinata_secret.getD [])
  else .noAuth

inductive HttpMethod where
  | get
  | post
deriving DecidableEq

/-- Payload shapes the client sends. -/
inductive ReqPayload where
  | empty
  | multipart (fileName : Option PyStr) (fileContent : Bytes) (fields : List (PyStr × PyStr))
  | jsonBody (j : Json)

/-- One HTTP request as issued through `httpx.Client`. -/
structure Request where
  method : HttpMethod
  url : PyStr
  timeout : Nat
  headers : AuthHeaders
  follow_redirects : Bool
  payload : ReqPayload

structure Response where
  status_code : Nat
  content : Bytes

/-- Outcome of a request: a response, or a raised transport exception. -/
inductive NetResult where
  | ok (r : Response)
  | exn (msg : PyStr)

/-- The network oracle. -/
abbrev Net := Request → NetResult

/-- `response.json()`: decode the body and parse it (raises on failure). -/
def Response.jsonE (r : Response) : Except PyErr Json :=
  match utf8Decode r.content with
  | none => .error .valueError
  | some s =>
    match loads s with
    | none => .error .valueError
    | some j => .ok j

/-- `d[k]` on a parsed JSON object (last duplicate wins, as in `dict`);
`none` models the raised `KeyError`/`TypeError`. -/
def jObjGet : JsonObj → PyStr → Option Json
  | .nil, _ => none
  | .cons k' v t, k =>
    match jObjGet t k with
    | some r => some r
    | none => if k' = k then some v else none

/-- `result[key]` on a decoded response, raising when absent. -/
def jGet (j : Json) (k : PyStr) : Except PyErr Json :=
  match j with
  | .obj o =>
    match jObjGet o k with
    | some v => .ok v
    | none => .error (.keyError k)
  | _ => .error (.keyError k)

/-- The CID string the adapter hands back.  Python returns the raw JSON
value; the model renders a non-string value by its serialization. -/
def jsonToPyStr : Json → PyStr
  | .str s => s
  | v => dumpsVal v

/-- `except Exception: ... return default` around a computation. -/
def pyCatch (default : α) : Except PyErr α → Except PyErr α
  | .error _ => .ok default
  | r => r

/-- `{'name': name}` / `pinataMetadata`. -/
def nameMetaJson (name : PyStr) : Json := .obj (.cons "name".data (.str name) .nil)

/-- Extract the CID field from a 200 response, raising on a body that is
not JSON or lacks the key. -/
def cidFromResponse (resp : Response) (key : PyStr) : Except PyErr (Option PyStr) :=
  match resp.jsonE with
  | .error e => .error e
  | .ok j =>
    match jGet j key with
    | .error e => .error e
    | .ok v => .ok (some (jsonToPyStr v))

/-- The multipart request of `_upload_to_pinata` (120-second client). -/
def IPFSClient.pinataFileReq (c : IPFSClient) (data : Bytes) (name : PyStr) : Request :=
  { method := .post, url := c.base_url.getD [] ++ "/pinning/pinFileToIPFS".data,
    timeout := 120, headers := c.get_headers, follow_redirects := false,
    payload := .multipart (some name) data
      [("pinataMetadata".data, dumpsVal (nameMetaJson name))] }

/-- `IPFSClient._upload_to_pinata`. -/
def IPFSClient.uploadToPinata (c : IPFSClient) (net : Net) (data : Bytes) (name : PyStr) :
    Except PyErr (Option PyStr) × List Request :=
  (match net (c.pinataFileReq data name) with
   | .exn m => .error (.transport m)
   | .ok resp =>
     if resp.status_code = 200 then cidFromResponse resp "IpfsHash".data
     else .ok none,
   [c.pinataFileReq data name])

/-- The multipart request of `_upload_to_local_ipfs` (120-second client). -/
def IPFSClient.localAddReq (c : IPFSClient) (data : Bytes) : Request :=
  { method := .post, url := c.ipfs_api_url.getD [] ++ "/api/v0/add".data,
    timeout := 120, headers := .noAuth, follow_redirects := false,
    payload := .multipart none data [] }

/-- `IPFSClient._upload_to_local_ipfs`. -/
def IPFSClient.uploadToLocal (c : IPFSClient) (net : Net) (data : Bytes) :
    Except PyErr (Option PyStr) × List Request :=
  (match net (c.localAddReq data) with
   | .exn m => .error (.transport m)
   | .ok resp =>
     if resp.status_code = 200 then cidFromResponse resp "Hash".data
     else .ok none,
   [c.localAddReq data])

/-- `IPFSClient.upload_file`: missing file short-circuits to `None`; the
body is wrapped in `try/except` returning `None` on any exception. -/
def IPFSClient.upload_file (c : IPFSClient) (net : Net) (fs : FS) (filePath : PyStr)
    (name : Option PyStr) : Except PyErr (Option PyStr) × List Request :=
  match alookup filePath fs with
  | none => (.ok none, [])
  | some data =>
    let nm := pyOrStr name (pathName filePath)
    let r := if c.use_pinata then c.uploadToPinata net data nm else c.uploadToLocal net data
    (pyCatch none r.1, r.2)

/-- The JSON request of `_upload_json_to_pinata` (60-second client). -/
def IPFSClient.pinataJsonReq (c : IPFSClient) (data : Json) (name : PyStr) : Request :=
  { method := .post, url := c.base_url.getD [] ++ "/pinning/pinJSONToIPFS".data,
    timeout := 60, headers := c.get_headers, follow_redirects := false,
    payload := .jsonBody (.obj (.cons "pinataContent".data data
      (.cons "pinataMetadata".data (nameMetaJson name) .nil))) }

/-- `IPFSClient._upload_json_to_pinata`. -/
def IPFSClient.uploadJsonToPinata (c : IPFSClient) (net : Net) (data : Json) (name : PyStr) :
    Except PyErr (Option PyStr) × List Request :=
  (match net (c.pinataJsonReq data name) with
   | .exn m => .error (.transport m)
   | .ok resp =>
     if resp.status_code = 200 then cidFromResponse resp "IpfsHash".data
     else .ok none,
   [c.pinataJsonReq data name])

/-- `IPFSClient.upload_json`: Pinata path posts JSON directly; the local
path serializes to a temp file and reuses `_upload_to_local_ipfs` (and so
its 120-second timeout).  Wrapped in `try/except` returning `None`. -/
def IPFSClient.upload_json (c : IPFSClient) (net : Net) (data : Json) (name : PyStr) :
    Except PyErr (Option PyStr) × List Request :=
  let r :=
    if c.use_pinata then c.uploadJsonToPinata net data name
    else c.uploadToLocal net (utf8Encode (dumpsVal data))
  (pyCatch none r.1, r.2)

/-- The gateway fetch request shared by the read paths (the timeout is the
one point of difference: 120 s for the file download, 60 s for JSON). -/
def IPFSClient.fetchReq (c : IPFSClient) (cid : PyStr) (t : Nat) : Request :=
  let cidN := normalizeCid cid
  let gw := if c.use_pinata then c.pinata_gateway.getD [] else c.ipfs_gateway.getD []
  { method := .get, url := gw ++ "/ipfs/".data ++ cidN, timeout := t,
    headers := .noAuth, follow_redirects := true, payload := .empty }

/-- `IPFSClient.download_file`: normalize the CID, fetch from the gateway,
write the body to the output path; `try/except` returns `False`. -/
def IPFSClient.download_file (c : IPFSClient) (net : Net) (fs : FS) (cid outputPath : PyStr) :
    (Except PyErr Bool × FS) × List Request :=
  (match net (c.fetchReq cid 120) with
   | .exn _ => (.ok false, fs)
   | .ok resp =>
     if resp.status_code = 200 then (.ok true, ainsert outputPath resp.content fs)
     else (.ok false, fs),
   [c.fetchReq cid 120])

/-- `IPFSClient.download_json`: as `download_file` but parses the body;
`try/except` returns `None` (also when `response.json()` raises). -/
def IPFSClient.download_json (c : IPFSClient) (net : Net) (cid : PyStr) :
    Except PyErr (Option Json) × List Request :=
  (match net (c.fetchReq cid 60) with
   | .exn _ => .ok none
   | .ok resp =>
     if resp.status_code = 200 then
       match resp.jsonE with
       | .error _ => .ok none
       | .ok j => .ok (some j)
     else .ok none,
   [c.fetchReq cid 60])

/-- The single request `pin_cid` issues (`pin/add` on the self-hosted
node, `pinByHash` on Pinata; both branches return `status == 200`). -/
def IPFSClient.pinReq (c : IPFSClient) (cid : PyStr) (name : Option PyStr) : Request :=
  if !c.use_pinata then
    { method := .post,
      url := c.ipfs_api_url.getD [] ++ "/api/v0/pin/add?arg=".data ++ cid,
      timeout := 60, headers := .noAuth, follow_redirects := false, payload := .empty }
  else
    let payload : Json :=
      if truthy name then
        .obj (.cons "hashToPin".data (.str cid)
          (.cons "pinataMetadata".data (nameMetaJson (name.getD [])) .nil))
      else .obj (.cons "hashToPin".data (.str cid) .nil)
    { method := .post, url := c.base_url.getD [] ++ "/pinning/pinByHash".data,
      timeout := 60, headers := c.get_headers, follow_redirects := false,
      payload := .jsonBody payload }

/-- `IPFSClient.pin_cid`: pin via `pinByHash` (hosted) or `pin/add`
(self-hosted).  There is no `try/except` in this method: a transport
exception from `httpx` propagates to the caller. -/
def IPFSClient.pin_cid (c : IPFSClient) (net : Net) (cid : PyStr) (name : Option PyStr) :
    Except PyErr Bool × List Request :=
  match net (c.pinReq cid name) with
  | .exn m => (.error (.transport m), [c.pinReq cid name])
  | .ok resp => (.ok (resp.status_code = 200), [c.pinReq cid name])

/-- `IPFSClient.get_gateway_url`: normalize, then build the gateway URL. -/
def IPFSClient.get_gateway_url (c : IPFSClient) (cid : PyStr) : PyStr :=
  let cidN := normalizeCid cid
  let gw := if c.use_pinata then c.pinata_gateway.getD [] else c.ipfs_gateway.getD []
  gw ++ "/ipfs/".data ++ cidN

/-- The identity/authentication probe request (10-second client). -/
def IPFSClient.probeReq (c : IPFSClient) : Request :=
  if c.use_pinata then
    { method := .get, url := c.base_url.getD [] ++ "/data/testAuthentication".data,
      timeout := 10, headers := c.get_headers, follow_redirects := false, payload := .empty }
  else
    { method := .post, url := c.ipfs_api_url.getD [] ++ "/api/v0/id".data,
      timeout := 10, headers := .noAuth, follow_redirects := false, payload := .empty }

/-- `IPFSClient.test_connection`: authenticated probe (hosted) or `id`
probe (self-hosted), 10-second timeout, `try/except` returning `False`. -/
def IPFSClient.test_connection (c : IPFSClient) (net : Net) :
    Except PyErr Bool × List Request :=
  (match net c.probeReq with
   | .exn _ => .ok false
   | .ok resp => .ok (resp.status_code = 200),
   [c.probeReq])

/-- The methods `class IPFSClient` exposes (non-underscore, source order). -/
def IPFSClient.surface : List String :=
  ["upload_file", "upload_json", "download_file", "download_json",
   "pin_cid", "get_gateway_url", "test_connection"]

/-! ## `get_ipfs_client` (backend selector) -/

/-- A metadata entry parsed back from the sidecar file
(`{"name": ..., "size": ..., "type": ...}` as written by
`_save_metadata`).  `none` covers value shapes outside the typed model. -/
def jsonToMeta : Json → Option MockMeta
  | .obj (.cons k1 (.str nm) (.cons k2 (.int sz) (.cons k3 (.str ty) .nil))) =>
    if k1 = "name".data ∧ k2 = "size".data ∧ k3 = "type".data ∧ 0 ≤ sz then
      some ⟨nm, sz.toNat, ty⟩
    else none
  | _ => none

def jsonToIndex : JsonObj → Option (List (PyStr × MockMeta))
  | .nil => some []
  | .cons k v t => do
    let m ← jsonToMeta v
    let rest ← jsonToIndex t
    pure ((k, m) :: rest)

/-- `MockIPFSClient.__init__` / `_load_metadata` over an existing storage
directory: absent sidecar means an empty index; a sidecar that does not
decode into a well-formed index is `none` (in Python a malformed file
raises in the constructor). -/
def mkMockClient (dirFS : FS) : Option MockIPFSClient :=
  let idx : Option (List (PyStr × MockMeta)) :=
    match alookup "metadata.json".data dirFS with
    | none => some []
    | some bs => do
      let s ← utf8Decode bs
      let j ← loads s
      match j with
      | .obj o => jsonToIndex o
      | _ => none
  idx.map (fun md => ⟨"./ipfs_mock".data, dirFS, md⟩)

/-- The Store a resolution produces: an `IPFSClient` instance (hosted or
self-hosted according to its `use_pinata`) or a `MockIPFSClient`. -/
inductive Store where
  | adapter (c : IPFSClient)
  | mock (m : MockIPFSClient)

/-- `get_ipfs_client(use_mock)`: explicit mock request; else hosted
credentials present and probe succeeds; else self-hosted URL configured
and probe succeeds; else mock.  `none` models the only raising path: the
mock constructor finding an unreadable sidecar index. -/
def get_ipfs_client (env : Env) (net : Net) (mockDir : FS) (use_mock : Bool) : Option Store :=
  if use_mock then (mkMockClient mockDir).map Store.mock
  else
    let viaPinata : Option Store :=
      if truthy env.pinata_jwt || truthy env.pinata_api_key then
        let c := IPFSClient.init env true
        match (c.test_connection net).1 with
        | .ok true => some (Store.adapter c)
        | _ => none
      else none
    match viaPinata with
    | some s => some s
    | none =>
      let viaLocal : Option Store :=
        if truthy env.ipfs_api_url then
          let c := IPFSClient.init env false
          match (c.test_connection net).1 with
          | .ok true => some (Store.adapter c)
          | _ => none
        else none
      match viaLocal with
      | some s => some s
      | none => (mkMockClient mockDir).map Store.mock

/-! ## Lemmas about `pyReplace` and `pyStrip` -/

theorem pyReplaceF_fuel (f1 : Nat) : ∀ (f2 : Nat) (s old new : PyStr),
    s.length ≤ f1 → s.length ≤ f2 → pyReplaceF f1 s old new = pyReplaceF f2 s old new := by
  induction f1 with
  | zero =>
    intro f2 s old new h1 _
    obtain rfl : s = [] := List.length_eq_zero.mp (Nat.le_zero.mp h1)
    cases f2 <;> rfl
  | succ f ih =>
    intro f2 s old new h1 h2
    cases s with
    | nil => cases f2 <;> rfl
    | cons c rest =>
      obtain ⟨g, rfl⟩ : ∃ g, f2 = g + 1 := by
        cases f2 with
        | zero => simp only [List.length_cons] at h2; omega
        | succ g => exact ⟨g, rfl⟩
      cases old with
      | nil => rfl
      | cons o os =>
        simp only [List.length_cons] at h1 h2
        simp only [pyReplaceF]
        by_cases hp : (o :: os).isPrefixOf (c :: rest) = true
        · rw [if_pos hp, if_pos hp]
          congr 1
          exact ih g _ _ _ (by simp only [List.length_drop]; omega)
            (by simp only [List.length_drop]; omega)
        · rw [if_neg hp, if_neg hp]
          congr 1
          exact ih g _ _ _ (by omega) (by omega)

theorem pyReplace_eq_f (f : Nat) (s old new : PyStr) (h : s.length ≤ f) :
    pyReplace s old new = pyReplaceF f s old new :=
  pyReplaceF_fuel s.length f s old new (Nat.le_refl _) h

/-- A string containing no occurrence of the pattern's first character is
left unchanged by `replace`. -/
theorem pyReplace_no_head (o : Char) (os new : PyStr) : ∀ (f : Nat) (s : PyStr),
    s.length ≤ f → o ∉ s → pyReplaceF f s (o :: os) new = s := by
  intro f
  induction f with
  | zero =>
    intro s h _
    have : s = [] := List.length_eq_zero.mp (Nat.le_zero.mp h)
    subst this; rfl
  | succ f ih =>
    intro s h hno
    match s with
    | [] => rfl
    | c :: rest =>
      have hco : ¬(o = c) := fun hh => hno (hh ▸ List.mem_cons_self c rest)
      have hp : (o :: os).isPrefixOf (c :: rest) = false := by
        simp only [List.isPrefixOf, Bool.and_eq_false_iff]
        left
        simp only [beq_eq_false_iff_ne, ne_eq]
        exact hco
      simp only [pyReplaceF, hp, if_false, Bool.false_eq_true]
      congr 1
      apply ih
      · simp only [List.length_cons] at h; omega
      · exact fun hm => hno (List.mem_cons_of_mem c hm)

/-- Removing the pattern from a string that starts with it removes that
leading occurrence and continues in the remainder. -/
theorem pyReplace_front (o : Char) (os X new : PyStr) :
    pyReplace ((o :: os) ++ X) (o :: os) new = new ++ pyReplace X (o :: os) new := by
  have hlen : ((o :: os) ++ X).length = os.length + X.length + 1 := by
    simp only [List.length_append, List.length_cons]; omega
  rw [pyReplace, hlen]
  simp only [List.cons_append, pyReplaceF]
  split
  · congr 1
    simp only [List.append_eq]
    rw [List.drop_left]
    exact (pyReplace_eq_f _ X (o :: os) new (by omega)).symm
  · rename_i hnp
    exact absurd (List.isPrefixOf_iff_prefix.mpr ⟨X, by simp⟩) hnp

/-- Appending a character that does not occur in the pattern cannot create
or destroy a prefix match. -/
theorem isPrefixOf_append_singleton (p l : PyStr) (x : Char) (hx : x ∉ p) :
    p.isPrefixOf (l ++ [x]) = p.isPrefixOf l := by
  cases hpl : p.isPrefixOf l with
  | true =>
    apply List.isPrefixOf_iff_prefix.mpr
    exact (List.isPrefixOf_iff_prefix.mp hpl).trans ⟨[x], rfl⟩
  | false =>
    cases hq : p.isPrefixOf (l ++ [x]) with
    | false => rfl
    | true =>
      exfalso
      have hp := List.isPrefixOf_iff_prefix.mp hq
      by_cases hlen : p.length ≤ l.length
      · have : p <+: l := by
          rw [List.prefix_iff_eq_take] at hp ⊢
          rwa [List.take_append_of_le_length hlen] at hp
        rw [List.isPrefixOf_iff_prefix.mpr this] at hpl
        exact Bool.true_eq_false.mp hpl
      · have hlen2 : p.length ≤ l.length + 1 := by
          have := hp.length_le
          simpa using this
        have hpeq : p = l ++ [x] := by
          apply hp.eq_of_length
          simp only [List.length_append, List.length_singleton]
          omega
        exact hx (hpeq ▸ List.mem_append_right l (List.mem_singleton_self x))

/-- Appending a character that does not occur in the pattern commutes with
`replace`. -/
theorem pyReplaceF_append_singleton (o : Char) (os : PyStr) (x : Char) (new : PyStr)
    (hx : x ∉ o :: os) : ∀ (f : Nat) (s : PyStr), s.length + 1 ≤ f →
    pyReplaceF f (s ++ [x]) (o :: os) new = pyReplaceF f s (o :: os) new ++ [x] := by
  intro f
  induction f with
  | zero => intro s h; omega
  | succ f ih =>
    intro s h
    cases s with
    | nil =>
      have hp : (o :: os).isPrefixOf [x] = false := by
        rw [show [x] = ([] : PyStr) ++ [x] by rfl, isPrefixOf_append_singleton _ _ _ hx]
        rfl
      simp only [List.nil_append, pyReplaceF, hp, if_false, Bool.false_eq_true]
      cases f <;> rfl
    | cons c rest =>
      simp only [List.length_cons] at h
      have hiff : (o :: os).isPrefixOf ((c :: rest) ++ [x]) = (o :: os).isPrefixOf (c :: rest) :=
        isPrefixOf_append_singleton _ _ _ hx
      simp only [List.cons_append, List.append_eq, pyReplaceF] at hiff ⊢
      by_cases hp : (o :: os).isPrefixOf (c :: rest) = true
      · rw [if_pos (hiff.trans hp), if_pos hp]
        have hoslen : os.length ≤ rest.length := by
          have := (List.isPrefixOf_iff_prefix.mp hp).length_le
          simp only [List.length_cons] at this
          omega
        rw [List.drop_append_of_le_length hoslen]
        rw [ih (rest.drop os.length) (by simp only [List.length_drop]; omega)]
        simp only [List.append_assoc]
      · rw [if_neg (by rw [hiff]; exact hp), if_neg hp]
        simp only [List.cons_append]
        congr 1
        exact ih rest (by omega)

theorem pyReplace_append_singleton (o : Char) (os : PyStr) (x : Char) (new s : PyStr)
    (hx : x ∉ o :: os) :
    pyReplace (s ++ [x]) (o :: os) new = pyReplace s (o :: os) new ++ [x] := by
  have hl : (s ++ [x]).length = s.length + 1 := by simp
  rw [pyReplace, hl, pyReplaceF_append_singleton o os x new hx (s.length + 1) s (Nat.le_refl _)]
  congr 1
  exact (pyReplace_eq_f (s.length + 1) s (o :: os) new (by omega)).symm

theorem pyReplace_cons_ne_head (c o : Char) (os new s : PyStr) (hco : c ≠ o) :
    pyReplace (c :: s) (o :: os) new = c :: pyReplace s (o :: os) new := by
  rw [pyReplace]
  simp only [List.length_cons, pyReplaceF]
  have hp : (o :: os).isPrefixOf (c :: s) = false := by
    simp only [List.isPrefixOf, Bool.and_eq_false_iff]
    left
    simp only [beq_eq_false_iff_ne, ne_eq]
    exact fun hh => hco hh.symm
  rw [if_neg (by rw [hp]; simp)]
  rfl

/-- A string none of whose characters is whitespace is unchanged by
`strip`. -/
theorem pyStrip_no_ws (s : PyStr) (h : ∀ c ∈ s, isPySpace c = false) : pyStrip s = s := by
  have h1 : s.dropWhile isPySpace = s := by
    cases s with
    | nil => rfl
    | cons c t => simp [List.dropWhile_cons, h c (List.mem_cons_self c t)]
  have h2 : s.reverse.dropWhile isPySpace = s.reverse := by
    cases hr : s.reverse with
    | nil => rfl
    | cons c t =>
      have hc : c ∈ s := by
        rw [← List.mem_reverse, hr]
        exact List.mem_cons_self c t
      simp [List.dropWhile_cons, h c hc]
  rw [pyStrip, h1, h2, List.reverse_reverse]

/-- A `strip`-invariant string is invariant under both one-sided
whitespace drops. -/
theorem pyStrip_fixed_drops (X : PyStr) (hstrip : pyStrip X = X) :
    X.dropWhile isPySpace = X ∧ X.reverse.dropWhile isPySpace = X.reverse := by
  set A := X.dropWhile isPySpace with hA
  set B := A.reverse.dropWhile isPySpace with hB
  have hsufA : A <:+ X := List.dropWhile_suffix _
  have hsufB : B <:+ A.reverse := List.dropWhile_suffix _
  have hlenX : B.reverse.length = X.length := by rw [pyStrip] at hstrip; rw [hstrip]
  have hlenB : B.length = X.length := by simpa using hlenX
  have hlenA : A.length = X.length := by
    have h1 : B.length ≤ A.reverse.length := hsufB.length_le
    have h2 : A.length ≤ X.length := hsufA.length_le
    simp only [List.length_reverse] at h1
    omega
  have hAX : A = X := hsufA.eq_of_length hlenA
  refine ⟨hAX, ?_⟩
  have hBX : B = X.reverse := by
    have := hsufB.eq_of_length (by simp only [List.length_reverse]; rw [hlenB, hAX])
    rwa [hAX] at this
  rw [← hAX, ← hB, hBX, hAX]

/-- Stripping removes one layer of surrounding spaces from a
`strip`-invariant string. -/
theorem pyStrip_pad (X : PyStr) (hstrip : pyStrip X = X) :
    pyStrip (' ' :: X ++ [' ']) = X := by
  obtain ⟨hd, hrd⟩ := pyStrip_fixed_drops X hstrip
  cases X with
  | nil => rfl
  | cons c t =>
    have hcX : isPySpace c = false := by
      by_contra hc
      have hc' : isPySpace c = true := by
        cases hcc : isPySpace c with
        | true => rfl
        | false => exact absurd hcc hc
      rw [List.dropWhile_cons, if_pos hc'] at hd
      have := congrArg List.length hd
      have hle := (List.dropWhile_suffix (l := t) isPySpace).length_le
      simp only [List.length_cons] at this
      omega
    have hdrop1 : (' ' :: ((c :: t) ++ [' '])).dropWhile isPySpace =
        ((c :: t) ++ [' ']).dropWhile isPySpace := by
      rw [List.dropWhile_cons]
      simp [isPySpace]
    have hdrop2 : ((c :: t) ++ [' ']).dropWhile isPySpace = (c :: t) ++ [' '] := by
      simp only [List.cons_append, List.dropWhile_cons, hcX]
      simp
    rw [pyStrip, show ' ' :: (c :: t) ++ [' '] = ' ' :: ((c :: t) ++ [' ']) by simp]
    rw [hdrop1, hdrop2]
    have hrev : ((c :: t) ++ [' ']).reverse = ' ' :: (c :: t).reverse := by
      simp
    rw [hrev, List.dropWhile_cons]
    simp only [show isPySpace ' ' = true by rfl, if_pos]
    rw [hrd, List.reverse_reverse]

/-- `"ipfs://"` as a cons cell. -/
theorem ipfsPat_eq : "ipfs://".data = 'i' :: "pfs://".data := rfl

/-- CID normalization on already-clean strings, on `"ipfs://"`-prefixed
strings, and on space-padded strings. -/
theorem normalizeCid_clean (X : PyStr)
    (hrep : pyReplace X "ipfs://".data [] = X) (hstrip : pyStrip X = X) :
    normalizeCid X = X ∧
    normalizeCid ("ipfs://".data ++ X) = X ∧
    normalizeCid (' ' :: X ++ [' ']) = X := by
  refine ⟨?_, ?_, ?_⟩
  · rw [normalizeCid, hrep, hstrip]
  · rw [normalizeCid, ipfsPat_eq]
    rw [show 'i' :: "pfs://".data ++ X = ('i' :: "pfs://".data) ++ X by rfl]
    rw [pyReplace_front]
    rw [← ipfsPat_eq, hrep]
    simpa using hstrip
  · rw [normalizeCid, ipfsPat_eq]
    rw [show ' ' :: X ++ [' '] = ' ' :: (X ++ [' ']) by simp]
    rw [pyReplace_cons_ne_head ' ' 'i' _ _ _ (by decide)]
    rw [pyReplace_append_singleton 'i' "pfs://".data ' ' [] X (by decide)]
    rw [← ipfsPat_eq, hrep]
    exact pyStrip_pad X hstrip

/-! ## Character facts about the mock CID -/

/-- The lowercase hex digits. -/
def hexDigits : List Char := "0123456789abcdef".data

theorem hexChar_mem (n : Nat) (h : n < 16) : hexChar n ∈ hexDigits := by
  interval_cases n <;> decide

theorem beBytes_lt (n : Nat) : ∀ (v : Nat), ∀ b ∈ beBytes n v, b < 256 := by
  induction n with
  | zero => intro v b hb; simp [beBytes] at hb
  | succ n ih =>
    intro v b hb
    simp only [beBytes, List.mem_append, List.mem_singleton] at hb
    rcases hb with h | h
    · exact ih _ b h
    · omega

theorem sha256_bytes_lt (msg : Bytes) : ∀ b ∈ sha256 msg, b < 256 := by
  rw [sha256]
  generalize sha256Process sha256H0 (sha256Pad msg) = hs
  induction hs with
  | nil => simp
  | cons w t ih =>
    intro b hb
    simp only [List.foldr_cons, List.mem_append] at hb
    rcases hb with h | h
    · exact beBytes_lt 4 w b h
    · exact ih b h

theorem sha256Hexdigest_mem (msg : Bytes) : ∀ c ∈ sha256Hexdigest msg, c ∈ hexDigits := by
  rw [sha256Hexdigest]
  have hb := sha256_bytes_lt msg
  generalize sha256 msg = bs at hb
  induction bs with
  | nil => simp
  | cons b t ih =>
    intro c hc
    simp only [List.foldr_cons, List.mem_append] at hc
    rcases hc with h | h
    · have hblt : b < 256 := hb b (List.mem_cons_self b t)
      simp only [byteHex, List.mem_cons, List.not_mem_nil, or_false] at h
      rcases h with rfl | rfl
      · exact hexChar_mem _ (by omega)
      · exact hexChar_mem _ (by omega)
    · exact ih (fun x hx => hb x (List.mem_cons_of_mem b hx)) c h

theorem computeHash_mem (data : Bytes) :
    ∀ c ∈ computeHash data, c = 'Q' ∨ c = 'm' ∨ c ∈ hexDigits := by
  intro c hc
  rw [computeHash] at hc
  simp only [List.mem_cons] at hc
  rcases hc with rfl | rfl | h
  · exact Or.inl rfl
  · exact Or.inr (Or.inl rfl)
  · exact Or.inr (Or.inr (sha256Hexdigest_mem data c (List.take_subset 44 _ h)))

/-- The mock CID contains no `'i'`, so `replace('ipfs://', '')` leaves it
unchanged; none of its characters is whitespace, so neither does
`strip()`. -/
theorem normalizeCid_computeHash (data : Bytes) :
    normalizeCid (computeHash data) = computeHash data := by
  have hmem := computeHash_mem data
  have hi : 'i' ∉ computeHash data := by
    intro hi
    rcases hmem 'i' hi with h | h | h
    · exact absurd h (by decide)
    · exact absurd h (by decide)
    · exact absurd h (by decide)
  have hrep : pyReplace (computeHash data) "ipfs://".data [] = computeHash data := by
    rw [ipfsPat_eq, pyReplace]
    exact pyReplace_no_head 'i' "pfs://".data [] _ _ (Nat.le_refl _) hi
  have hstrip : pyStrip (computeHash data) = computeHash data := by
    apply pyStrip_no_ws
    intro c hc
    rcases hmem c hc with rfl | rfl | h
    · rfl
    · rfl
    · exact (by decide : ∀ x ∈ hexDigits, isPySpace x = false) c h
  rw [normalizeCid, hrep, hstrip]

theorem computeHash_ne_metadata (d : Bytes) : computeHash d ≠ "metadata.json".data := by
  intro h
  rw [show "metadata.json".data = 'm' :: "etadata.json".data from rfl, computeHash] at h
  injection h with h1 _
  exact absurd h1 (by decide)

/-- `alookup` after `ainsert`, combined form. -/
theorem alookup_ainsert (k k' : PyStr) (v : α) (l : List (PyStr × α)) :
    alookup k' (ainsert k v l) = if k = k' then some v else alookup k' l := by
  by_cases h : k = k'
  · subst h; simp [alookup_ainsert_self]
  · rw [if_neg h]
    exact alookup_ainsert_ne k k' v l (fun hh => h hh.symm)

/-! ## The mock store invariant -/

/-- Well-formedness of a mock store: every registered CID names a stored
blob whose length matches the recorded size (and is distinct from the
sidecar file), and every stored file is either the sidecar or a
registered blob. -/
def MockInv (st : MockIPFSClient) : Prop :=
  (∀ cid m, alookup cid st.metadata = some m →
    cid ≠ "metadata.json".data ∧
    ∃ b, alookup cid st.dir = some b ∧ m.size = b.length) ∧
  (∀ k b, alookup k st.dir = some b →
    k = "metadata.json".data ∨ ∃ m, alookup k st.metadata = some m)

/-- The shared post-state shape of both mock upload operations preserves
the invariant. -/
theorem mockInv_after_store (st : MockIPFSClient) (hinv : MockInv st) (data mb : Bytes)
    (meta : MockMeta) (hsize : meta.size = data.length) :
    MockInv { storage_dir := st.storage_dir,
              dir := ainsert "metadata.json".data mb (ainsert (computeHash data) data st.dir),
              metadata := ainsert (computeHash data) meta st.metadata } := by
  obtain ⟨h1, h2⟩ := hinv
  constructor
  · intro cid m hm
    simp only at hm
    rw [alookup_ainsert] at hm
    by_cases hc : computeHash data = cid
    · subst hc
      rw [if_pos rfl] at hm
      obtain rfl : meta = m := by injection hm
      refine ⟨computeHash_ne_metadata data, data, ?_, hsize⟩
      simp only
      rw [alookup_ainsert, if_neg (fun hh => computeHash_ne_metadata data hh.symm)]
      rw [alookup_ainsert, if_pos rfl]
    · rw [if_neg hc] at hm
      obtain ⟨hne, b, hb, hs⟩ := h1 cid m hm
      refine ⟨hne, b, ?_, hs⟩
      simp only
      rw [alookup_ainsert, if_neg (fun hh => hne hh.symm)]
      rw [alookup_ainsert, if_neg hc]
      exact hb
  · intro k b hk
    simp only at hk ⊢
    rw [alookup_ainsert] at hk
    by_cases hmj : "metadata.json".data = k
    · exact Or.inl hmj.symm
    · rw [if_neg hmj] at hk
      rw [alookup_ainsert] at hk
      by_cases hc : computeHash data = k
      · subst hc
        exact Or.inr ⟨meta, by rw [alookup_ainsert, if_pos rfl]⟩
      · rw [if_neg hc] at hk
        rcases h2 k b hk with h | ⟨m, hm⟩
        · exact Or.inl h
        · exact Or.inr ⟨m, by rw [alookup_ainsert, if_neg hc]; exact hm⟩

/-! ## Claim theorems -/

/-- An empty mock store (fresh storage directory, nothing uploaded). -/
def mockEmpty : MockIPFSClient := ⟨"./ipfs_mock".data, [], []⟩

/-- An environment with no configuration at all. -/
def envNone : Env := ⟨none, none, none, none, none, none⟩

/-- A network on which every request raises a transport error. -/
def netDead : Net := fun _ => NetResult.exn "connection refused".data

theorem mockEmpty_inv : MockInv mockEmpty := by
  constructor
  · intro cid m hm
    simp [mockEmpty, alookup] at hm
  · intro k b hk
    simp [mockEmpty, alookup] at hk

/-- C10: a successful mock upload (file or JSON) registers the returned
CID in the metadata index with `size` equal to the stored blob's length
and stores the blob under the CID; both uploads preserve the store
invariant (downloads return results without touching the store state). -/
theorem mock_upload_invariant (st : MockIPFSClient) (hinv : MockInv st) :
    (∀ (fs : FS) (p : PyStr) (nm : Option PyStr) (data : Bytes),
      alookup p fs = some data →
      (st.upload_file fs p nm).1 = some (computeHash data) ∧
      MockInv (st.upload_file fs p nm).2 ∧
      alookup (computeHash data) (st.upload_file fs p nm).2.metadata =
        some ⟨pyOrStr nm (pathName p), data.length, "file".data⟩ ∧
      alookup (computeHash data) (st.upload_file fs p nm).2.dir = some data) ∧
    (∀ (d : Json) (name : PyStr),
      (st.upload_json d name).1 = some (computeHash (utf8Encode (dumpsVal d))) ∧
      MockInv (st.upload_json d name).2 ∧
      alookup (computeHash (utf8Encode (dumpsVal d))) (st.upload_json d name).2.metadata =
        some ⟨name, (utf8Encode (dumpsVal d)).length, "json".data⟩ ∧
      alookup (computeHash (utf8Encode (dumpsVal d))) (st.upload_json d name).2.dir =
        some (utf8Encode (dumpsVal d))) := by
  constructor
  · intro fs p nm data h
    simp only [MockIPFSClient.upload_file, h, MockIPFSClient.saveMetadata]
    refine ⟨trivial, ?_, ?_, ?_⟩
    · exact mockInv_after_store st hinv data _ _ rfl
    · simp only [alookup_ainsert_self]
    · rw [alookup_ainsert,
        if_neg (fun hh => computeHash_ne_metadata data hh.symm), alookup_ainsert_self]
  · intro d name
    simp only [MockIPFSClient.upload_json, MockIPFSClient.saveMetadata]
    refine ⟨trivial, ?_, ?_, ?_⟩
    · exact mockInv_after_store st hinv (utf8Encode (dumpsVal d)) _ _ rfl
    · simp only [alookup_ainsert_self]
    · rw [alookup_ainsert,
        if_neg (fun hh => computeHash_ne_metadata _ hh.symm), alookup_ainsert_self]

/-- C10 witness: uploading a three-byte file into the empty store. -/
theorem mock_upload_invariant_witness :
    alookup "in.bin".data [("in.bin".data, [1, 2, 3])] = some [1, 2, 3] ∧
    (mockEmpty.upload_file [("in.bin".data, [1, 2, 3])] "in.bin".data none).1 =
      some (computeHash [1, 2, 3]) := by
  refine ⟨by decide, ?_⟩
  exact ((mock_upload_invariant mockEmpty mockEmpty_inv).1
    [("in.bin".data, [1, 2, 3])] "in.bin".data none [1, 2, 3] (by decide)).1

/-- C7 (amended): on a well-formed mock store, `download_file` and
`download_json` of a CID that is not registered — and whose normalized
form is not the sidecar name `metadata.json` — return an absent result
(`False` / `None`), never raise, and leave every state unchanged. -/
theorem mock_download_unregistered (st : MockIPFSClient) (fs : FS) (cid out : PyStr)
    (hinv : MockInv st)
    (hreg : alookup (normalizeCid cid) st.metadata = none)
    (hmj : normalizeCid cid ≠ "metadata.json".data) :
    st.download_file fs cid out = (false, fs) ∧ st.download_json cid = .ok none := by
  have hdir : alookup (normalizeCid cid) st.dir = none := by
    cases hd : alookup (normalizeCid cid) st.dir with
    | none => rfl
    | some b =>
      rcases hinv.2 _ b hd with h | ⟨m, hm⟩
      · exact absurd h hmj
      · rw [hreg] at hm
        exact absurd hm (by simp)
  constructor
  · simp only [MockIPFSClient.download_file, hdir]
  · simp only [MockIPFSClient.download_json, hdir]

/-- C7 witness: a fresh store and a CID that is not stored. -/
theorem mock_download_unregistered_witness :
    alookup (normalizeCid "QmMissing".data) mockEmpty.metadata = none ∧
    mockEmpty.download_file [] "QmMissing".data "out.bin".data = (false, []) ∧
    mockEmpty.download_json "QmMissing".data = .ok none := by
  refine ⟨by decide, ?_⟩
  have h := mock_download_unregistered mockEmpty [] "QmMissing".data "out.bin".data
    mockEmpty_inv (by decide) (by decide)
  exact h

/-- C7 counterexample: after one upload, the sidecar file `metadata.json`
exists in the storage directory, so `download_file("metadata.json")`
reports success even though that CID was never registered by any upload —
refuting the claim that every never-registered CID downloads as absent. -/
theorem mock_download_metadata_sidecar_found :
    alookup "metadata.json".data
      ((mockEmpty.upload_json (Json.obj JsonObj.nil) "data.json".data).2).metadata = none ∧
    ((mockEmpty.upload_json (Json.obj JsonObj.nil) "data.json".data).2).download_file []
      "metadata.json".data "out.bin".data ≠ (false, []) := by
  constructor
  · decide
  · intro h
    have : (((mockEmpty.upload_json (Json.obj JsonObj.nil) "data.json".data).2).download_file []
        "metadata.json".data "out.bin".data).1 = true := by decide
    rw [h] at this
    exact absurd this (by decide)

/-- C4: the mock CID is a deterministic function of the uploaded bytes
only: two file uploads of identical bytes — from any store states, paths
and names — both return exactly `computeHash data`, hence identical CIDs. -/
theorem mock_cid_deterministic (st st' : MockIPFSClient) (fs fs' : FS) (p p' : PyStr)
    (nm nm' : Option PyStr) (data : Bytes)
    (h : alookup p fs = some data) (h' : alookup p' fs' = some data) :
    (st.upload_file fs p nm).1 = some (computeHash data) ∧
    (st'.upload_file fs' p' nm').1 = (st.upload_file fs p nm).1 := by
  simp [MockIPFSClient.upload_file, h, h']

/-- C4 witness: the same three bytes uploaded from two different stores
and paths. -/
theorem mock_cid_deterministic_witness :
    alookup "a.bin".data [("a.bin".data, [7, 8, 9])] = some [7, 8, 9] ∧
    ((mockEmpty.upload_file [("a.bin".data, [7, 8, 9])] "a.bin".data none).1 =
      some (computeHash [7, 8, 9]) ∧
    ((mockEmpty.upload_file [("a.bin".data, [7, 8, 9])] "a.bin".data none).2.upload_file
        [("b.bin".data, [7, 8, 9])] "b.bin".data (some "other".data)).1 =
      (mockEmpty.upload_file [("a.bin".data, [7, 8, 9])] "a.bin".data none).1) := by
  refine ⟨by decide, ?_⟩
  exact mock_cid_deterministic mockEmpty _ _ _ "a.bin".data "b.bin".data none
    (some "other".data) [7, 8, 9] (by decide) (by decide)

/-- C9: uploading a path that does not exist returns `None` without
raising on both the adapter (no HTTP request is even issued) and the
mock (whose state is unchanged). -/
theorem upload_missing_file (c : IPFSClient) (net : Net) (st : MockIPFSClient) (fs : FS)
    (p : PyStr) (nm : Option PyStr) (h : alookup p fs = none) :
    c.upload_file net fs p nm = (.ok none, []) ∧ st.upload_file fs p nm = (none, st) := by
  constructor
  · simp [IPFSClient.upload_file, h]
  · simp [MockIPFSClient.upload_file, h]

/-- C9 witness: an empty caller filesystem. -/
theorem upload_missing_file_witness :
    alookup "nope.bin".data ([] : FS) = none ∧
    (IPFSClient.init envNone true).upload_file netDead [] "nope.bin".data none =
      (.ok none, []) ∧
    mockEmpty.upload_file [] "nope.bin".data none = (none, mockEmpty) := by
  refine ⟨by decide, ?_⟩
  exact upload_missing_file (IPFSClient.init envNone true) netDead mockEmpty []
    "nope.bin".data none (by decide)

/-- C3 counterexample: the adapter surface contains `pin_cid` but the
mock class defines no such method, so the mock does not implement the
full adapter operation surface (a `pin` call on the mock raises
`AttributeError` instead of reporting success). -/
theorem mock_surface_missing_pin :
    "pin_cid" ∈ IPFSClient.surface ∧ "pin_cid" ∉ MockIPFSClient.surface := by
  decide

/-- C3 (amended): the mock implements exactly the adapter operation
surface minus `pin`. -/
theorem mock_surface_is_adapter_minus_pin :
    MockIPFSClient.surface = IPFSClient.surface.erase "pin_cid" := by
  decide

/-- C2: whenever the mock constructor can read the storage directory, the
selector — with no bearer token, no API key and no self-hosted API URL
configured, and the mock not explicitly requested — returns the mock
store without raising; and for any configuration and probe outcomes it
returns some usable store. -/
theorem get_ipfs_client_fallback (env : Env) (net : Net) (mockDir : FS) (m : MockIPFSClient)
    (hload : mkMockClient mockDir = some m) :
    ((truthy env.pinata_jwt = false ∧ truthy env.pinata_api_key = false ∧
      truthy env.ipfs_api_url = false) →
      get_ipfs_client env net mockDir false = some (Store.mock m)) ∧
    (∀ b : Bool, (get_ipfs_client env net mockDir b).isSome = true) := by
  constructor
  · rintro ⟨h1, h2, h3⟩
    simp [get_ipfs_client, h1, h2, h3, hload]
  · intro b
    cases b with
    | true => simp [get_ipfs_client, hload]
    | false =>
      simp only [get_ipfs_client, Bool.false_eq_true, if_false]
      split
      · simp
      · split
        · simp
        · simp [hload]

/-- C2 witness: empty environment, unreachable network, fresh mock
directory. -/
theorem get_ipfs_client_fallback_witness :
    mkMockClient [] = some mockEmpty ∧
    get_ipfs_client envNone netDead [] false = some (Store.mock mockEmpty) := by
  refine ⟨rfl, ?_⟩
  exact (get_ipfs_client_fallback envNone netDead [] mockEmpty rfl).1 ⟨rfl, rfl, rfl⟩

theorem pyCatch_isOk (d : α) (r : Except PyErr α) : (pyCatch d r).isOk = true := by
  cases r <;> rfl

/-- A network on which every request gets an HTTP response. -/
def RespondsAlways (net : Net) : Prop := ∀ r : Request, ∃ resp, net r = NetResult.ok resp

/-- C1 (amended): upload, uploadJSON, download, downloadJSON and the probe
absorb every failure — transport exception or non-success HTTP status —
and return an absent result instead of raising, for any network behaviour
and both backends.  `pin` absorbs HTTP failures (a non-200 response gives
`False`) but has no handler for a raised transport exception. -/
theorem adapter_absorbs_failures (c : IPFSClient) (net : Net) (fs : FS) (p out cid : PyStr)
    (nm pname : Option PyStr) (d : Json) (jn : PyStr) :
    (c.upload_file net fs p nm).1.isOk = true ∧
    (c.upload_json net d jn).1.isOk = true ∧
    (c.download_file net fs cid out).1.1.isOk = true ∧
    (c.download_json net cid).1.isOk = true ∧
    (c.test_connection net).1.isOk = true ∧
    (RespondsAlways net → (c.pin_cid net cid pname).1.isOk = true) := by
  refine ⟨?_, ?_, ?_, ?_, ?_, ?_⟩
  · cases h : alookup p fs with
    | none => simp [IPFSClient.upload_file, h, Except.isOk, Except.toBool]
    | some data => simp [IPFSClient.upload_file, h, pyCatch_isOk]
  · simp [IPFSClient.upload_json, pyCatch_isOk]
  · simp only [IPFSClient.download_file]
    generalize net _ = nr
    cases nr with
    | exn m => rfl
    | ok resp =>
      by_cases hs : resp.status_code = 200 <;> simp [hs, Except.isOk, Except.toBool]
  · simp only [IPFSClient.download_json]
    generalize net _ = nr
    cases nr with
    | exn m => rfl
    | ok resp =>
      by_cases hs : resp.status_code = 200
      · cases hj : resp.jsonE <;> simp [hs, hj, Except.isOk, Except.toBool]
      · simp [hs, Except.isOk, Except.toBool]
  · simp only [IPFSClient.test_connection]
    generalize net _ = nr
    cases nr with
    | exn m => rfl
    | ok resp => rfl
  · intro hresp
    obtain ⟨resp, hr⟩ := hresp (c.pinReq cid pname)
    simp [IPFSClient.pin_cid, hr, Except.isOk, Except.toBool]

/-- A network answering every request with an empty 200 response. -/
def netOk200 : Net := fun _ => NetResult.ok ⟨200, []⟩

/-- C1 witness: the absorbing operations on a dead network and `pin` on a
responding one. -/
theorem adapter_absorbs_failures_witness :
    ((IPFSClient.init envNone true).upload_file netDead [] "f.bin".data none).1.isOk = true ∧
    ((IPFSClient.init envNone true).pin_cid netOk200 "QmX".data none).1.isOk = true := by
  have h1 := adapter_absorbs_failures (IPFSClient.init envNone true) netDead []
    "f.bin".data "out".data "QmX".data none none (Json.obj JsonObj.nil) "n".data
  have h2 := adapter_absorbs_failures (IPFSClient.init envNone true) netOk200 []
    "f.bin".data "out".data "QmX".data none none (Json.obj JsonObj.nil) "n".data
  exact ⟨h1.1, h2.2.2.2.2.2 (fun r => ⟨⟨200, []⟩, rfl⟩)⟩

/-- C1 counterexample: a transport failure during `pin_cid` escapes the
adapter as a raised exception (`Except.error`) instead of an absent
result — on both the hosted and the self-hosted client. -/
theorem pin_cid_transport_exception_escapes :
    ((IPFSClient.init envNone false).pin_cid netDead "QmX".data none).1 =
      .error (.transport "connection refused".data) ∧
    ((IPFSClient.init envNone true).pin_cid netDead "QmX".data none).1 =
      .error (.transport "connection refused".data) := ⟨rfl, rfl⟩

/-- C8 (amended): binary transfers (file upload on both backends, file
download) use the 120-second client; JSON download, pin and the hosted
JSON upload use the 60-second client; the identity probe uses the
10-second client.  The self-hosted JSON upload, however, reuses
`_upload_to_local_ipfs` and therefore also uses the 120-second client. -/
theorem adapter_timeouts (c : IPFSClient) (net : Net) (fs : FS) (p out cid : PyStr)
    (nm pname : Option PyStr) (d : Json) (jn : PyStr) :
    (∀ r ∈ (c.upload_file net fs p nm).2, r.timeout = 120) ∧
    (∀ r ∈ (c.download_file net fs cid out).2, r.timeout = 120) ∧
    (c.use_pinata = true → ∀ r ∈ (c.upload_json net d jn).2, r.timeout = 60) ∧
    (c.use_pinata = false → ∀ r ∈ (c.upload_json net d jn).2, r.timeout = 120) ∧
    (∀ r ∈ (c.download_json net cid).2, r.timeout = 60) ∧
    (∀ r ∈ (c.pin_cid net cid pname).2, r.timeout = 60) ∧
    (∀ r ∈ (c.test_connection net).2, r.timeout = 10) := by
  refine ⟨?_, ?_, ?_, ?_, ?_, ?_, ?_⟩
  · cases h : alookup p fs with
    | none => simp [IPFSClient.upload_file, h]
    | some data =>
      cases hup : c.use_pinata with
      | true =>
        simp only [IPFSClient.upload_file, h, hup, if_true, IPFSClient.uploadToPinata]
        intro r hr
        simp only [List.mem_singleton] at hr
        subst hr; rfl
      | false =>
        simp only [IPFSClient.upload_file, h, hup, Bool.false_eq_true, if_false,
          IPFSClient.uploadToLocal]
        intro r hr
        simp only [List.mem_singleton] at hr
        subst hr; rfl
  · simp only [IPFSClient.download_file]
    intro r hr
    simp only [List.mem_singleton] at hr
    subst hr; rfl
  · intro hup
    simp only [IPFSClient.upload_json, hup, if_true, IPFSClient.uploadJsonToPinata]
    intro r hr
    simp only [List.mem_singleton] at hr
    subst hr; rfl
  · intro hup
    simp only [IPFSClient.upload_json, hup, Bool.false_eq_true, if_false,
      IPFSClient.uploadToLocal]
    intro r hr
    simp only [List.mem_singleton] at hr
    subst hr; rfl
  · simp only [IPFSClient.download_json]
    intro r hr
    simp only [List.mem_singleton] at hr
    subst hr; rfl
  · simp only [IPFSClient.pin_cid]
    generalize net _ = nr
    cases nr with
    | exn m =>
      intro r hr
      simp only [List.mem_singleton] at hr
      subst hr
      simp only [IPFSClient.pinReq]
      cases c.use_pinata <;> rfl
    | ok resp =>
      intro r hr
      simp only [List.mem_singleton] at hr
      subst hr
      simp only [IPFSClient.pinReq]
      cases c.use_pinata <;> rfl
  · simp only [IPFSClient.test_connection]
    intro r hr
    simp only [List.mem_singleton] at hr
    subst hr
    simp only [IPFSClient.probeReq]
    cases c.use_pinata <;> rfl

/-- C8 witness: the hosted JSON upload issues exactly one request, with
the 60-second timeout. -/
theorem adapter_timeouts_witness :
    ((IPFSClient.init envNone true).upload_json netDead (Json.obj JsonObj.nil)
      "n".data).2.map (fun r => r.timeout) = [60] := by
  have h := (adapter_timeouts (IPFSClient.init envNone true) netDead [] "p".data
    "out".data "QmX".data none none (Json.obj JsonObj.nil) "n".data).2.2.1 rfl
  have h60 : ((IPFSClient.init envNone true).pinataJsonReq (Json.obj JsonObj.nil)
      "n".data).timeout = 60 :=
    h _ (List.mem_cons_self _ _)
  calc ((IPFSClient.init envNone true).upload_json netDead (Json.obj JsonObj.nil)
        "n".data).2.map (fun r => r.timeout)
      = [((IPFSClient.init envNone true).pinataJsonReq (Json.obj JsonObj.nil)
          "n".data).timeout] := rfl
    _ = [60] := by rw [h60]

/-- C8 counterexample: the self-hosted JSON upload issues its one request
with the 120-second binary-transfer timeout, not the 60-second JSON
timeout the claim states. -/
theorem selfhosted_upload_json_timeout_is_120 :
    ((IPFSClient.init envNone false).upload_json netDead (Json.obj JsonObj.nil)
      "data.json".data).2.map (fun r => r.timeout) = [120] ∧ (120 : Nat) ≠ 60 :=
  ⟨rfl, by decide⟩

/-- C6 (amended): `download` and `downloadJSON` on both backends and
`gatewayURL` on the adapter resolve any two CID spellings with the same
normalization (`replace('ipfs://', '').strip()`) identically, and for a
clean CID `X` the spellings `"ipfs://X"`, `" X "` and `X` all normalize
to `X`; the mock's `gatewayURL`, however, interpolates the CID verbatim
without normalizing. -/
theorem cid_normalization (c : IPFSClient) (net : Net) (st : MockIPFSClient) (fs fs2 : FS)
    (x y out : PyStr) (h : normalizeCid x = normalizeCid y) :
    c.download_file net fs x out = c.download_file net fs y out ∧
    c.download_json net x = c.download_json net y ∧
    c.get_gateway_url x = c.get_gateway_url y ∧
    st.download_file fs2 x out = st.download_file fs2 y out ∧
    st.download_json x = st.download_json y ∧
    st.get_gateway_url x = "file://".data ++ st.storage_dir ++ '/' :: x ∧
    (∀ X : PyStr, pyReplace X "ipfs://".data [] = X → pyStrip X = X →
      normalizeCid ("ipfs://".data ++ X) = X ∧
      normalizeCid (' ' :: X ++ [' ']) = X ∧ normalizeCid X = X) := by
  refine ⟨?_, ?_, ?_, ?_, ?_, rfl, ?_⟩
  · simp only [IPFSClient.download_file, IPFSClient.fetchReq, h]
  · simp only [IPFSClient.download_json, IPFSClient.fetchReq, h]
  · simp only [IPFSClient.get_gateway_url, h]
  · simp only [MockIPFSClient.download_file, h]
  · simp only [MockIPFSClient.download_json, h]
  · intro X h1 h2
    obtain ⟨ha, hb, hc⟩ := normalizeCid_clean X h1 h2
    exact ⟨hb, hc, ha⟩

/-- C6 witness: the prefixed and the space-padded spelling of the same
CID resolve identically on the mock read path. -/
theorem cid_normalization_witness :
    normalizeCid "ipfs://QmA".data = normalizeCid " QmA ".data ∧
    mockEmpty.download_json "ipfs://QmA".data = mockEmpty.download_json " QmA ".data := by
  refine ⟨by decide, ?_⟩
  exact (cid_normalization (IPFSClient.init envNone true) netDead mockEmpty [] []
    "ipfs://QmA".data " QmA ".data "out".data (by decide)).2.2.2.2.1

/-- C6 counterexample: the mock's `gatewayURL` does not strip the scheme
prefix — the claim's spellings `"ipfs://X"` and `"X"` resolve to different
URLs on that read path. -/
theorem mock_gateway_url_not_normalized :
    mockEmpty.get_gateway_url "ipfs://QmX".data ≠ mockEmpty.get_gateway_url "QmX".data := by
  decide

/-! ## Round trip of the JSON serializer and parser -/

theorem char_valid_nat (c : Char) :
    c.toNat < 0xd800 ∨ (0xdfff < c.toNat ∧ c.toNat < 0x110000) := c.valid

theorem hexVal_hexChar (m : Nat) (h : m < 16) : hexVal (hexChar m) = some m := by
  interval_cases m <;> decide

theorem parseHex4_hex4 (n : Nat) (h : n < 65536) (rest : PyStr) :
    parseHex4 (hex4 n ++ rest) = some (n, rest) := by
  simp only [hex4, List.cons_append, List.nil_append, parseHex4]
  rw [hexVal_hexChar _ (by omega), hexVal_hexChar _ (by omega),
    hexVal_hexChar _ (by omega), hexVal_hexChar _ (by omega)]
  have harith : ((n / 4096 % 16 * 16 + n / 256 % 16) * 16 + n / 16 % 16) * 16 + n % 16 = n := by
    omega
  show some (((n / 4096 % 16 * 16 + n / 256 % 16) * 16 + n / 16 % 16) * 16 + n % 16, rest) =
    some (n, rest)
  rw [harith]

/-- The decimal digit characters. -/
def decDigits : List Char := "0123456789".data

theorem digitChar_mem (n : Nat) (h : n < 10) : digitChar n ∈ decDigits := by
  interval_cases n <;> decide

theorem digitChar_toNat (n : Nat) (h : n < 10) : (digitChar n).toNat = 48 + n := by
  interval_cases n <;> decide

theorem natDecF_fuel (f1 : Nat) : ∀ (f2 m : Nat), m < f1 → m < f2 →
    natDecF f1 m = natDecF f2 m := by
  induction f1 with
  | zero => intro f2 m h1 _; omega
  | succ f ih =>
    intro f2 m h1 h2
    obtain ⟨g, rfl⟩ : ∃ g, f2 = g + 1 := ⟨f2 - 1, by omega⟩
    simp only [natDecF]
    by_cases hm : m < 10
    · rw [if_pos hm, if_pos hm]
    · rw [if_neg hm, if_neg hm]
      congr 1
      exact ih g (m / 10) (by omega) (by omega)

theorem natDec_lt10 (m : Nat) (h : m < 10) : natDec m = [digitChar m] := by
  simp only [natDec, natDecF, if_pos h]

theorem natDec_step (m : Nat) (h : 10 ≤ m) :
    natDec m = natDec (m / 10) ++ [digitChar (m % 10)] := by
  simp only [natDec, natDecF, if_neg (by omega : ¬ m < 10)]
  congr 1
  exact natDecF_fuel m (m / 10 + 1) (m / 10) (by omega) (by omega)

theorem natDec_digits (m : Nat) : ∀ c ∈ natDec m, c ∈ decDigits := by
  induction m using Nat.strong_induction_on with
  | _ m ih =>
    by_cases h : m < 10
    · rw [natDec_lt10 m h]
      intro c hc
      simp only [List.mem_cons, List.not_mem_nil, or_false] at hc
      exact hc ▸ digitChar_mem m h
    · rw [natDec_step m (by omega)]
      intro c hc
      rcases List.mem_append.mp hc with h1 | h1
      · exact ih (m / 10) (by omega) c h1
      · simp only [List.mem_cons, List.not_mem_nil, or_false] at h1
        exact h1 ▸ digitChar_mem _ (by omega)

theorem natDec_head_pos (m : Nat) (h : 0 < m) :
    ∃ d ds, natDec m = d :: ds ∧ d ∈ decDigits ∧ d ≠ '0' := by
  induction m using Nat.strong_induction_on with
  | _ m ih =>
    by_cases hm : m < 10
    · refine ⟨digitChar m, [], natDec_lt10 m hm, digitChar_mem m hm, ?_⟩
      interval_cases m <;> simp_all <;> decide
    · obtain ⟨d, ds, hnd, hdm, hd0⟩ := ih (m / 10) (by omega) (by omega)
      exact ⟨d, ds ++ [digitChar (m % 10)],
        by rw [natDec_step m (by omega), hnd, List.cons_append], hdm, hd0⟩

theorem digitsVal_append_last (xs : PyStr) (y : Char) :
    digitsVal (xs ++ [y]) = digitsVal xs * 10 + (y.toNat - 48) := by
  simp [digitsVal, List.foldl_append]

theorem digitsVal_natDec (m : Nat) : digitsVal (natDec m) = m := by
  induction m using Nat.strong_induction_on with
  | _ m ih =>
    by_cases h : m < 10
    · rw [natDec_lt10 m h]
      simp [digitsVal, digitChar_toNat m h]
    · rw [natDec_step m (by omega), digitsVal_append_last, ih (m / 10) (by omega),
        digitChar_toNat _ (by omega)]
      omega

/-- `rest` neither extends a digit run nor begins a fraction/exponent. -/
def numStop (r : PyStr) : Prop :=
  match r with
  | [] => True
  | c :: _ => isDigit c = false ∧ c ≠ '.' ∧ c ≠ 'e' ∧ c ≠ 'E'

theorem numCont_of_numStop (r : PyStr) (h : numStop r) : numCont r = false := by
  cases r with
  | nil => rfl
  | cons c t =>
    obtain ⟨_, h2, h3, h4⟩ := h
    simp [numCont, h2, h3, h4]

theorem takeWhile_digits (ds rest : PyStr) (h1 : ∀ c ∈ ds, c ∈ decDigits)
    (h2 : numStop rest) :
    (ds ++ rest).takeWhile isDigit = ds ∧ (ds ++ rest).dropWhile isDigit = rest := by
  induction ds with
  | nil =>
    simp only [List.nil_append]
    cases rest with
    | nil => simp
    | cons c t =>
      obtain ⟨hd, _, _, _⟩ := h2
      simp [List.takeWhile_cons, List.dropWhile_cons, hd]
  | cons d t ih =>
    have hd : isDigit d = true :=
      (by decide : ∀ x ∈ decDigits, isDigit x = true) d (h1 d (List.mem_cons_self d t))
    obtain ⟨ht, hdp⟩ := ih (fun c hc => h1 c (List.mem_cons_of_mem d hc))
    simp [List.takeWhile_cons, List.dropWhile_cons, hd, ht, hdp]

theorem parseUInt_natDec (m : Nat) (rest : PyStr) (h : numStop rest) :
    parseUInt (natDec m ++ rest) = some (m, rest) := by
  by_cases hm : m = 0
  · subst hm
    rw [natDec_lt10 0 (by omega)]
    simp only [List.cons_append, List.nil_append, parseUInt]
    rw [if_pos (by decide : digitChar 0 = '0'),
      if_neg (by rw [numCont_of_numStop rest h]; simp)]
  · obtain ⟨d, ds, hnd, hdm, hd0⟩ := natDec_head_pos m (by omega)
    have hdig : isDigit d = true :=
      (by decide : ∀ x ∈ decDigits, isDigit x = true) d hdm
    rw [hnd, List.cons_append]
    simp only [parseUInt]
    rw [if_neg hd0, if_pos hdig]
    obtain ⟨ht, hdp⟩ := takeWhile_digits ds rest
      (fun c hc => natDec_digits m c (hnd ▸ List.mem_cons_of_mem d hc)) h
    simp only [ht, hdp]
    rw [if_neg (by rw [numCont_of_numStop rest h]; simp)]
    have : digitsVal (d :: ds) = m := by rw [← hnd, digitsVal_natDec]
    rw [this]

theorem parseNum_intDec (n : Int) (rest : PyStr) (h : numStop rest) :
    parseNum (intDec n ++ rest) = some (Json.int n, rest) := by
  rw [intDec]
  by_cases hn : n < 0
  · rw [if_pos hn]
    simp only [List.cons_append, parseNum, if_true]
    rw [parseUInt_natDec n.natAbs rest h]
    simp only [Option.map_some']
    have hval : (-(n.natAbs : Int)) = n := by omega
    rw [hval]
  · rw [if_neg hn]
    obtain ⟨d, ds, hnd⟩ : ∃ d ds, natDec n.toNat = d :: ds := by
      cases hx : natDec n.toNat with
      | nil =>
        exfalso
        by_cases hz : n.toNat < 10
        · rw [natDec_lt10 _ hz] at hx; exact absurd hx (by simp)
        · rw [natDec_step _ (by omega)] at hx; exact absurd hx (by simp)
      | cons a b => exact ⟨a, b, rfl⟩
    have hd : d ≠ '-' := by
      have := natDec_digits n.toNat d (hnd ▸ List.mem_cons_self d ds)
      intro hc
      rw [hc] at this
      exact absurd this (by decide)
    rw [hnd, List.cons_append]
    simp only [parseNum]
    rw [if_neg hd, ← List.cons_append, ← hnd, parseUInt_natDec n.toNat rest h]
    simp only [Option.map_some']
    have hval : ((n.toNat : Int)) = n := by omega
    rw [hval]

theorem escapeChar_pos (c : Char) : 0 < (escapeChar c).length := by
  rw [escapeChar]
  split_ifs <;> simp [hex4]

/-- `\\uXXXX` outside the surrogate range decodes to the scalar itself. -/
theorem scanEscape_u (n : Nat) (hn : n < 65536) (hs1 : ¬(0xd800 ≤ n ∧ n ≤ 0xdbff))
    (hs2 : ¬(0xdc00 ≤ n ∧ n ≤ 0xdfff)) (r' : PyStr) :
    scanEscape ('u' :: (hex4 n ++ r')) = some (Char.ofNat n, r') := by
  simp only [scanEscape, if_true]
  rw [parseHex4_hex4 n hn r']
  simp only [if_neg hs1, if_neg hs2]

/-- A surrogate pair decodes to the recombined scalar. -/
theorem scanEscape_surrogate (n : Nat) (h1 : 0x10000 ≤ n) (h2 : n < 0x110000) (r' : PyStr) :
    scanEscape ('u' :: (hex4 (0xd800 + (n - 0x10000) / 0x400) ++
      ('\\' :: 'u' :: (hex4 (0xdc00 + (n - 0x10000) % 0x400) ++ r')))) =
      some (Char.ofNat n, r') := by
  have hhi : 0xd800 + (n - 0x10000) / 0x400 < 0x10000 := by omega
  have hlo : 0xdc00 + (n - 0x10000) % 0x400 < 0x10000 := by omega
  have hhis : 0xd800 ≤ 0xd800 + (n - 0x10000) / 0x400 ∧
      0xd800 + (n - 0x10000) / 0x400 ≤ 0xdbff := by omega
  have hlos : 0xdc00 ≤ 0xdc00 + (n - 0x10000) % 0x400 ∧
      0xdc00 + (n - 0x10000) % 0x400 ≤ 0xdfff := by omega
  have harith : 0x10000 + (0xd800 + (n - 0x10000) / 0x400 - 0xd800) * 0x400 +
      (0xdc00 + (n - 0x10000) % 0x400 - 0xdc00) = n := by omega
  simp only [scanEscape, if_true]
  rw [parseHex4_hex4 _ hhi]
  simp only [if_pos hhis]
  simp only [if_true, and_self]
  rw [parseHex4_hex4 _ hlo]
  simp only [if_pos hlos, harith]

/-- One backslash step of the scanner, factored through `scanEscape`. -/
theorem parseStrF_backslash (f : Nat) (r0 : PyStr) (ec : Char) (r1 : PyStr)
    (h : scanEscape r0 = some (ec, r1)) :
    parseStrF (f + 1) ('\\' :: r0) =
      match parseStrF f r1 with
      | none => none
      | some (tl, rest) => some (ec :: tl, rest) := by
  have step : parseStrF (f + 1) ('\\' :: r0) =
      match scanEscape r0 with
      | none => none
      | some (ec, r1) =>
        match parseStrF f r1 with
        | none => none
        | some (tl, rest) => some (ec :: tl, rest) := rfl
  rw [step, h]

/-- Scanning one escaped character consumes it and recurses on the rest. -/
theorem parseStrF_escChar (c : Char) (f : Nat) (r' : PyStr) :
    parseStrF (f + 1) (escapeChar c ++ r') =
      (parseStrF f r').map (fun p => (c :: p.1, p.2)) := by
  by_cases h1 : c = '"'
  · subst h1
    rw [show escapeChar '"' ++ r' = '\\' :: ('"' :: r') from rfl,
      parseStrF_backslash f ('"' :: r') '"' r' rfl]
    cases parseStrF f r' with
    | none => rfl
    | some p => rfl
  by_cases h2 : c = '\\'
  · subst h2
    rw [show escapeChar '\\' ++ r' = '\\' :: ('\\' :: r') from rfl,
      parseStrF_backslash f ('\\' :: r') '\\' r' rfl]
    cases parseStrF f r' with
    | none => rfl
    | some p => rfl
  by_cases h3 : c.toNat = 8
  · obtain rfl : c = '\x08' := by rw [← Char.ofNat_toNat c, h3]
    rw [show escapeChar '\x08' ++ r' = '\\' :: ('b' :: r') from rfl,
      parseStrF_backslash f ('b' :: r') '\x08' r' rfl]
    cases parseStrF f r' with
    | none => rfl
    | some p => rfl
  by_cases h4 : c.toNat = 9
  · obtain rfl : c = '\t' := by rw [← Char.ofNat_toNat c, h4]
    rw [show escapeChar '\t' ++ r' = '\\' :: ('t' :: r') from rfl,
      parseStrF_backslash f ('t' :: r') '\t' r' rfl]
    cases parseStrF f r' with
    | none => rfl
    | some p => rfl
  by_cases h5 : c.toNat = 10
  · obtain rfl : c = '\n' := by rw [← Char.ofNat_toNat c, h5]
    rw [show escapeChar '\n' ++ r' = '\\' :: ('n' :: r') from rfl,
      parseStrF_backslash f ('n' :: r') '\n' r' rfl]
    cases parseStrF f r' with
    | none => rfl
    | some p => rfl
  by_cases h6 : c.toNat = 12
  · obtain rfl : c = '\x0c' := by rw [← Char.ofNat_toNat c, h6]
    rw [show escapeChar '\x0c' ++ r' = '\\' :: ('f' :: r') from rfl,
      parseStrF_backslash f ('f' :: r') '\x0c' r' rfl]
    cases parseStrF f r' with
    | none => rfl
    | some p => rfl
  by_cases h7 : c.toNat = 13
  · obtain rfl : c = '\x0d' := by rw [← Char.ofNat_toNat c, h7]
    rw [show escapeChar '\x0d' ++ r' = '\\' :: ('r' :: r') from rfl,
      parseStrF_backslash f ('r' :: r') '\x0d' r' rfl]
    cases parseStrF f r' with
    | none => rfl
    | some p => rfl
  by_cases h8 : c.toNat < 0x20 ∨ 0x7e < c.toNat
  · by_cases h9 : c.toNat < 0x10000
    · have hesc : escapeChar c = '\\' :: 'u' :: hex4 c.toNat := by
        rw [escapeChar, if_neg h1, if_neg h2, if_neg h3, if_neg h4, if_neg h5, if_neg h6,
          if_neg h7, if_pos h8, if_pos h9]
      have hs1 : ¬(0xd800 ≤ c.toNat ∧ c.toNat ≤ 0xdbff) := by
        rcases char_valid_nat c with h | h <;> omega
      have hs2 : ¬(0xdc00 ≤ c.toNat ∧ c.toNat ≤ 0xdfff) := by
        rcases char_valid_nat c with h | h <;> omega
      rw [hesc, show ('\\' :: 'u' :: hex4 c.toNat) ++ r' =
        '\\' :: ('u' :: (hex4 c.toNat ++ r')) by simp]
      rw [parseStrF_backslash f _ _ _ (scanEscape_u c.toNat h9 hs1 hs2 r')]
      cases parseStrF f r' with
      | none => rfl
      | some p =>
        show some (Char.ofNat c.toNat :: p.1, p.2) = some (c :: p.1, p.2)
        rw [Char.ofNat_toNat]
    · have hval : c.toNat < 0x110000 := by
        rcases char_valid_nat c with h | h <;> omega
      have hesc : escapeChar c =
          ('\\' :: 'u' :: hex4 (0xd800 + (c.toNat - 0x10000) / 0x400)) ++
            ('\\' :: 'u' :: hex4 (0xdc00 + (c.toNat - 0x10000) % 0x400)) := by
        rw [escapeChar, if_neg h1, if_neg h2, if_neg h3, if_neg h4, if_neg h5, if_neg h6,
          if_neg h7, if_pos h8, if_neg h9]
      rw [hesc, show (('\\' :: 'u' :: hex4 (0xd800 + (c.toNat - 0x10000) / 0x400)) ++
            ('\\' :: 'u' :: hex4 (0xdc00 + (c.toNat - 0x10000) % 0x400))) ++ r' =
          '\\' :: ('u' :: (hex4 (0xd800 + (c.toNat - 0x10000) / 0x400) ++
            ('\\' :: 'u' :: (hex4 (0xdc00 + (c.toNat - 0x10000) % 0x400) ++ r')))) by simp]
      rw [parseStrF_backslash f _ _ _ (scanEscape_surrogate c.toNat (by omega) hval r')]
      cases parseStrF f r' with
      | none => rfl
      | some p =>
        show some (Char.ofNat c.toNat :: p.1, p.2) = some (c :: p.1, p.2)
        rw [Char.ofNat_toNat]
  · have hesc : escapeChar c = [c] := by
      rw [escapeChar, if_neg h1, if_neg h2, if_neg h3, if_neg h4, if_neg h5, if_neg h6,
        if_neg h7, if_neg h8]
    have hge : ¬ c.toNat < 0x20 := by omega
    rw [hesc]
    simp only [List.cons_append, List.nil_append]
    simp only [parseStrF]
    rw [if_neg h1, if_neg h2, if_neg hge]
    cases parseStrF f r' with
    | none => rfl
    | some p => rfl

/-- Round trip of a serialized string body. -/
theorem parseStrF_escape (s : PyStr) : ∀ (fuel : Nat) (rest : PyStr),
    (escapeStr s).length < fuel →
    parseStrF fuel (escapeStr s ++ '"' :: rest) = some (s, rest) := by
  induction s with
  | nil =>
    intro fuel rest hf
    obtain ⟨f, rfl⟩ : ∃ f, fuel = f + 1 := ⟨fuel - 1, by omega⟩
    simp [parseStrF, escapeStr]
  | cons c t ih =>
    intro fuel rest hf
    obtain ⟨f, rfl⟩ : ∃ f, fuel = f + 1 := ⟨fuel - 1, by omega⟩
    have hlen : (escapeStr t).length < f := by
      have h1 := escapeChar_pos c
      simp only [escapeStr, List.length_append] at hf
      omega
    rw [show escapeStr (c :: t) = escapeChar c ++ escapeStr t from rfl, List.append_assoc,
      parseStrF_escChar c f (escapeStr t ++ '"' :: rest), ih f rest hlen]
    rfl

theorem jSkipWs_cons_not (c : Char) (s : PyStr) (h : isJsonWs c = false) :
    jSkipWs (c :: s) = c :: s := by
  simp [jSkipWs, List.dropWhile_cons, h]

theorem jSkipWs_space (s : PyStr) : jSkipWs (' ' :: s) = jSkipWs s := by
  show List.dropWhile isJsonWs (' ' :: s) = List.dropWhile isJsonWs s
  rw [List.dropWhile_cons, if_pos (show isJsonWs ' ' = true from rfl)]

theorem parseVal_space (f : Nat) (s : PyStr) : parseVal f (' ' :: s) = parseVal f s := by
  cases f with
  | zero => rfl
  | succ g => simp only [parseVal, jSkipWs_space]

theorem natDec_cons (m : Nat) : ∃ d ds, natDec m = d :: ds ∧ d ∈ decDigits := by
  by_cases h : m < 10
  · exact ⟨digitChar m, [], natDec_lt10 m h, digitChar_mem m h⟩
  · obtain ⟨d, ds, hnd, hdm, _⟩ := natDec_head_pos m (by omega)
    exact ⟨d, ds, hnd, hdm⟩

theorem intDec_head (n : Int) : ∃ c cs, intDec n = c :: cs ∧ (c = '-' ∨ c ∈ decDigits) := by
  rw [intDec]
  by_cases hn : n < 0
  · rw [if_pos hn]
    exact ⟨'-', natDec n.natAbs, rfl, Or.inl rfl⟩
  · rw [if_neg hn]
    obtain ⟨d, ds, hnd, hdm⟩ := natDec_cons n.toNat
    exact ⟨d, ds, hnd, Or.inr hdm⟩

theorem numHead_facts (c : Char) (h : c = '-' ∨ c ∈ decDigits) :
    isJsonWs c = false ∧ c ≠ '"' ∧ c ≠ '\x7b' ∧ c ≠ '[' ∧ c ≠ 'n' ∧ c ≠ 't' ∧ c ≠ 'f' ∧
      c ≠ ']' := by
  rcases h with rfl | h
  · decide
  · exact (by decide : ∀ x ∈ decDigits,
      isJsonWs x = false ∧ x ≠ '"' ∧ x ≠ '\x7b' ∧ x ≠ '[' ∧ x ≠ 'n' ∧ x ≠ 't' ∧ x ≠ 'f' ∧
        x ≠ ']') c h

theorem dumpsVal_head (v : Json) :
    ∃ c cs, dumpsVal v = c :: cs ∧ isJsonWs c = false ∧ c ≠ ']' := by
  cases v with
  | null => exact ⟨'n', "ull".data, rfl, rfl, by decide⟩
  | bool b =>
    cases b with
    | true => exact ⟨'t', "rue".data, rfl, rfl, by decide⟩
    | false => exact ⟨'f', "alse".data, rfl, rfl, by decide⟩
  | int n =>
    obtain ⟨c, cs, hc, hp⟩ := intDec_head n
    obtain ⟨hws, _, _, _, _, _, _, hne⟩ := numHead_facts c hp
    exact ⟨c, cs, hc, hws, hne⟩
  | str s => exact ⟨'"', escapeStr s ++ ['"'], rfl, rfl, by decide⟩
  | arr a =>
    cases a with
    | nil => exact ⟨'[', [']'], rfl, rfl, by decide⟩
    | cons h t => exact ⟨'[', dumpsVal h ++ dumpsArr t ++ [']'], rfl, rfl, by decide⟩
  | obj o =>
    cases o with
    | nil => exact ⟨'\x7b', ['\x7d'], rfl, rfl, by decide⟩
    | cons k v t =>
      exact ⟨'\x7b', strDumps k ++ ':' :: ' ' :: dumpsVal v ++ dumpsObj t ++ ['\x7d'],
        rfl, rfl, by decide⟩

theorem numStop_dumpsArr (t : JsonArr) (rest : PyStr) :
    numStop (dumpsArr t ++ ']' :: rest) := by
  cases t with
  | nil => exact ⟨by decide, by decide, by decide, by decide⟩
  | cons h t => exact ⟨by decide, by decide, by decide, by decide⟩

theorem numStop_dumpsObj (t : JsonObj) (rest : PyStr) :
    numStop (dumpsObj t ++ '\x7d' :: rest) := by
  cases t with
  | nil => exact ⟨by decide, by decide, by decide, by decide⟩
  | cons k v t => exact ⟨by decide, by decide, by decide, by decide⟩

/-- A value whose head is no structural token is parsed as a number. -/
theorem parseVal_step (g : Nat) (c : Char) (r : PyStr)
    (hws : isJsonWs c = false) (h1 : c ≠ '"') (h2 : c ≠ '\x7b') (h3 : c ≠ '[')
    (h4 : c ≠ 'n') (h5 : c ≠ 't') (h6 : c ≠ 'f') :
    parseVal (g + 1) (c :: r) = parseNum (c :: r) := by
  simp only [parseVal, jSkipWs_cons_not c r hws]
  rw [if_neg h1, if_neg h2, if_neg h3, if_neg (fun hh => h4 hh.1),
    if_neg (fun hh => h5 hh.1), if_neg (fun hh => h6 hh.1)]

theorem parseVal_null (g : Nat) (rest : PyStr) :
    parseVal (g + 1) ("null".data ++ rest) = some (Json.null, rest) := by
  simp [parseVal, jSkipWs_cons_not 'n' ('u' :: 'l' :: 'l' :: rest) rfl, List.isPrefixOf]

theorem parseVal_true (g : Nat) (rest : PyStr) :
    parseVal (g + 1) ("true".data ++ rest) = some (Json.bool true, rest) := by
  simp [parseVal, jSkipWs_cons_not 't' ('r' :: 'u' :: 'e' :: rest) rfl, List.isPrefixOf]

theorem parseVal_false (g : Nat) (rest : PyStr) :
    parseVal (g + 1) ("false".data ++ rest) = some (Json.bool false, rest) := by
  simp [parseVal, jSkipWs_cons_not 'f' ('a' :: 'l' :: 's' :: 'e' :: rest) rfl,
    List.isPrefixOf]

theorem parseVal_strDumps (g : Nat) (s : PyStr) (rest : PyStr) :
    parseVal (g + 1) (strDumps s ++ rest) = some (Json.str s, rest) := by
  have hshape : strDumps s ++ rest = '"' :: (escapeStr s ++ '"' :: rest) := by
    simp [strDumps]
  rw [hshape]
  have hskip := jSkipWs_cons_not '"' (escapeStr s ++ '"' :: rest) rfl
  simp only [parseVal, hskip]
  simp only [if_true]
  rw [parseStrF_escape s ((escapeStr s ++ '"' :: rest).length + 1) rest
    (by simp [List.length_append]; omega)]
  rfl

theorem parseVal_intDec (g : Nat) (n : Int) (rest : PyStr) (hrest : numStop rest) :
    parseVal (g + 1) (intDec n ++ rest) = some (Json.int n, rest) := by
  obtain ⟨c, cs, hc, hp⟩ := intDec_head n
  obtain ⟨hws, hq, hb, hk, hn', ht', hf', _⟩ := numHead_facts c hp
  rw [hc, List.cons_append, parseVal_step g c (cs ++ rest) hws hq hb hk hn' ht' hf',
    ← List.cons_append, ← hc, parseNum_intDec n rest hrest]

theorem jSkipWs_dumpsVal (v : Json) (r : PyStr) :
    jSkipWs (dumpsVal v ++ r) = dumpsVal v ++ r := by
  obtain ⟨c, cs, h, hws, _⟩ := dumpsVal_head v
  rw [h, List.cons_append, jSkipWs_cons_not c (cs ++ r) hws]

theorem parseVal_lbracket (g : Nat) (R : PyStr) :
    parseVal (g + 1) ('[' :: R) = parseArrBody g R := rfl

theorem parseVal_lbrace (g : Nat) (R : PyStr) :
    parseVal (g + 1) ('\x7b' :: R) = parseObjBody g R := rfl

theorem parseArrBody_rbracket (g : Nat) (R : PyStr) :
    parseArrBody (g + 1) (']' :: R) = some (Json.arr JsonArr.nil, R) := rfl

theorem parseArrRest_rbracket (g : Nat) (R : PyStr) :
    parseArrRest (g + 1) (']' :: R) = some (JsonArr.nil, R) := rfl

theorem parseArrRest_comma (g : Nat) (R : PyStr) :
    parseArrRest (g + 1) (',' :: R) =
      match parseVal g R with
      | none => none
      | some (v, r1) =>
        match parseArrRest g r1 with
        | none => none
        | some (tl, rest) => some (JsonArr.cons v tl, rest) := rfl

theorem parseObjBody_rbrace (g : Nat) (R : PyStr) :
    parseObjBody (g + 1) ('\x7d' :: R) = some (Json.obj JsonObj.nil, R) := rfl

theorem parseObjRest_rbrace (g : Nat) (R : PyStr) :
    parseObjRest (g + 1) ('\x7d' :: R) = some (JsonObj.nil, R) := rfl

/-- Entering an array whose head element is a value. -/
theorem parseArrBody_val (g : Nat) (S : PyStr) (c : Char) (cs : PyStr)
    (h : jSkipWs S = c :: cs) (hne : c ≠ ']') :
    parseArrBody (g + 1) S =
      match parseVal g (c :: cs) with
      | none => none
      | some (v1, r1) =>
        match parseArrRest g r1 with
        | none => none
        | some (tl, rest2) => some (Json.arr (JsonArr.cons v1 tl), rest2) := by
  have step : parseArrBody (g + 1) S =
      (match jSkipWs S with
       | [] => none
       | c :: r =>
         if c = ']' then some (Json.arr JsonArr.nil, r)
         else
           match parseVal g (c :: r) with
           | none => none
           | some (v1, r1) =>
             match parseArrRest g r1 with
             | none => none
             | some (tl, rest2) => some (Json.arr (JsonArr.cons v1 tl), rest2)) := rfl
  simp only [step, h]
  rw [if_neg hne]

/-- Scanning the first entry of a non-empty object. -/
theorem parseObjBody_entry (g : Nat) (k X : PyStr) :
    parseObjBody (g + 1) (strDumps k ++ ':' :: ' ' :: X) =
      match parseVal g (' ' :: X) with
      | none => none
      | some (v1, r3) =>
        match parseObjRest g r3 with
        | none => none
        | some (tl, rest2) => some (Json.obj (JsonObj.cons k v1 tl), rest2) := by
  have hshape : strDumps k ++ ':' :: ' ' :: X =
      '"' :: (escapeStr k ++ '"' :: (':' :: ' ' :: X)) := by
    simp [strDumps]
  have step : ∀ R : PyStr, parseObjBody (g + 1) ('"' :: R) =
      match parseStrF (R.length + 1) R with
      | none => none
      | some (k1, r1) =>
        match jSkipWs r1 with
        | [] => none
        | c2 :: r2 =>
          if c2 = ':' then
            match parseVal g r2 with
            | none => none
            | some (v1, r3) =>
              match parseObjRest g r3 with
              | none => none
              | some (tl, rest2) => some (Json.obj (JsonObj.cons k1 v1 tl), rest2)
          else none := fun R => rfl
  rw [hshape, step, parseStrF_escape k _ (':' :: ' ' :: X)
    (by simp [List.length_append]; omega)]
  rfl

/-- Scanning a subsequent `", "`-separated entry of an object. -/
theorem parseObjRest_entry (g : Nat) (k X : PyStr) :
    parseObjRest (g + 1) (',' :: ' ' :: (strDumps k ++ ':' :: ' ' :: X)) =
      match parseVal g (' ' :: X) with
      | none => none
      | some (v1, r3) =>
        match parseObjRest g r3 with
        | none => none
        | some (tl, rest2) => some (JsonObj.cons k v1 tl, rest2) := by
  have step : ∀ R : PyStr, parseObjRest (g + 1) (',' :: R) =
      (match jSkipWs R with
       | [] => none
       | c1 :: r1 =>
         if c1 = '"' then
           match parseStrF (r1.length + 1) r1 with
           | none => none
           | some (k1, r2) =>
             match jSkipWs r2 with
             | [] => none
             | c2 :: r3 =>
               if c2 = ':' then
                 match parseVal g r3 with
                 | none => none
                 | some (v1, r4) =>
                   match parseObjRest g r4 with
                   | none => none
                   | some (tl, rest2) => some (JsonObj.cons k1 v1 tl, rest2)
               else none
         else none) := fun R => rfl
  have hskip : jSkipWs (' ' :: (strDumps k ++ ':' :: ' ' :: X)) =
      '"' :: (escapeStr k ++ '"' :: (':' :: ' ' :: X)) := by
    rw [jSkipWs_space,
      show strDumps k ++ ':' :: ' ' :: X = '"' :: (escapeStr k ++ '"' :: (':' :: ' ' :: X))
        by simp [strDumps],
      jSkipWs_cons_not '"' (escapeStr k ++ '"' :: (':' :: ' ' :: X)) rfl]
  simp only [step, hskip]
  rw [parseStrF_escape k _ (':' :: ' ' :: X) (by simp [List.length_append]; omega)]
  rfl

mutual

theorem parseVal_dumps (v : Json) : ∀ (fuel : Nat) (rest : PyStr),
    (dumpsVal v).length < fuel → numStop rest →
    parseVal fuel (dumpsVal v ++ rest) = some (v, rest) := by
  cases v with
  | null =>
    intro fuel rest hf _
    obtain ⟨g, rfl⟩ : ∃ g, fuel = g + 1 := ⟨fuel - 1, by omega⟩
    exact parseVal_null g rest
  | bool b =>
    intro fuel rest hf _
    obtain ⟨g, rfl⟩ : ∃ g, fuel = g + 1 := ⟨fuel - 1, by omega⟩
    cases b with
    | true => exact parseVal_true g rest
    | false => exact parseVal_false g rest
  | int n =>
    intro fuel rest hf hrest
    obtain ⟨g, rfl⟩ : ∃ g, fuel = g + 1 := ⟨fuel - 1, by omega⟩
    exact parseVal_intDec g n rest hrest
  | str s =>
    intro fuel rest hf _
    obtain ⟨g, rfl⟩ : ∃ g, fuel = g + 1 := ⟨fuel - 1, by omega⟩
    exact parseVal_strDumps g s rest
  | arr a =>
    cases a with
    | nil =>
      intro fuel rest hf _
      have h2 : 2 < fuel := by simpa using hf
      obtain ⟨g, rfl⟩ : ∃ g, fuel = g + 1 := ⟨fuel - 1, by omega⟩
      obtain ⟨g', rfl⟩ : ∃ g', g = g' + 1 := ⟨g - 1, by omega⟩
      show parseVal (g' + 1 + 1) ('[' :: (']' :: rest)) = some (Json.arr JsonArr.nil, rest)
      rw [parseVal_lbracket, parseArrBody_rbracket]
    | cons h t =>
      intro fuel rest hf _
      have hlen : (dumpsVal (Json.arr (JsonArr.cons h t))).length =
          (dumpsVal h).length + (dumpsArr t).length + 2 := by
        show ('[' :: dumpsVal h ++ dumpsArr t ++ [']']).length = _
        simp [List.length_append]
        omega
      rw [hlen] at hf
      obtain ⟨g, rfl⟩ : ∃ g, fuel = g + 1 := ⟨fuel - 1, by omega⟩
      obtain ⟨g', rfl⟩ : ∃ g', g = g' + 1 := ⟨g - 1, by omega⟩
      have hshape : dumpsVal (Json.arr (JsonArr.cons h t)) ++ rest =
          '[' :: (dumpsVal h ++ (dumpsArr t ++ ']' :: rest)) := by
        show ('[' :: dumpsVal h ++ dumpsArr t ++ [']']) ++ rest = _
        simp [List.cons_append, List.append_assoc]
      rw [hshape, parseVal_lbracket]
      obtain ⟨c, cs0, hch, hcw, hcne⟩ := dumpsVal_head h
      have hjs : jSkipWs (dumpsVal h ++ (dumpsArr t ++ ']' :: rest)) =
          c :: (cs0 ++ (dumpsArr t ++ ']' :: rest)) := by
        rw [jSkipWs_dumpsVal, hch, List.cons_append]
      rw [parseArrBody_val g' _ c _ hjs hcne]
      rw [show c :: (cs0 ++ (dumpsArr t ++ ']' :: rest)) =
          dumpsVal h ++ (dumpsArr t ++ ']' :: rest) by rw [← List.cons_append, ← hch]]
      simp only [parseVal_dumps h g' (dumpsArr t ++ ']' :: rest) (by omega)
          (numStop_dumpsArr t rest),
        parseArrRest_dumps t g' rest (by omega)]
  | obj o =>
    cases o with
    | nil =>
      intro fuel rest hf _
      have h2 : 2 < fuel := by simpa using hf
      obtain ⟨g, rfl⟩ : ∃ g, fuel = g + 1 := ⟨fuel - 1, by omega⟩
      obtain ⟨g', rfl⟩ : ∃ g', g = g' + 1 := ⟨g - 1, by omega⟩
      show parseVal (g' + 1 + 1) ('\x7b' :: ('\x7d' :: rest)) =
        some (Json.obj JsonObj.nil, rest)
      rw [parseVal_lbrace, parseObjBody_rbrace]
    | cons k v t =>
      intro fuel rest hf _
      have hlen : (dumpsVal (Json.obj (JsonObj.cons k v t))).length =
          (strDumps k).length + (dumpsVal v).length + (dumpsObj t).length + 4 := by
        show ('\x7b' :: strDumps k ++ ':' :: ' ' :: dumpsVal v ++ dumpsObj t ++
          ['\x7d']).length = _
        simp [List.length_append]
        omega
      rw [hlen] at hf
      obtain ⟨g, rfl⟩ : ∃ g, fuel = g + 1 := ⟨fuel - 1, by omega⟩
      obtain ⟨g', rfl⟩ : ∃ g', g = g' + 1 := ⟨g - 1, by omega⟩
      have hshape : dumpsVal (Json.obj (JsonObj.cons k v t)) ++ rest =
          '\x7b' :: (strDumps k ++ ':' :: ' ' ::
            (dumpsVal v ++ (dumpsObj t ++ '\x7d' :: rest))) := by
        show ('\x7b' :: strDumps k ++ ':' :: ' ' :: dumpsVal v ++ dumpsObj t ++
          ['\x7d']) ++ rest = _
        simp [List.cons_append, List.append_assoc]
      rw [hshape, parseVal_lbrace, parseObjBody_entry g' k
        (dumpsVal v ++ (dumpsObj t ++ '\x7d' :: rest))]
      rw [parseVal_space g' (dumpsVal v ++ (dumpsObj t ++ '\x7d' :: rest))]
      simp only [parseVal_dumps v g' (dumpsObj t ++ '\x7d' :: rest) (by omega)
          (numStop_dumpsObj t rest),
        parseObjRest_dumps t g' rest (by omega)]

theorem parseArrRest_dumps (a : JsonArr) : ∀ (fuel : Nat) (rest : PyStr),
    (dumpsArr a).length < fuel →
    parseArrRest fuel (dumpsArr a ++ ']' :: rest) = some (a, rest) := by
  cases a with
  | nil =>
    intro fuel rest hf
    obtain ⟨g, rfl⟩ : ∃ g, fuel = g + 1 := ⟨fuel - 1, by omega⟩
    show parseArrRest (g + 1) (']' :: rest) = some (JsonArr.nil, rest)
    rw [parseArrRest_rbracket]
  | cons h t =>
    intro fuel rest hf
    have hlen : (dumpsArr (JsonArr.cons h t)).length =
        (dumpsVal h).length + (dumpsArr t).length + 2 := by
      show (',' :: ' ' :: dumpsVal h ++ dumpsArr t).length = _
      simp [List.length_append]
    rw [hlen] at hf
    obtain ⟨g, rfl⟩ : ∃ g, fuel = g + 1 := ⟨fuel - 1, by omega⟩
    have hshape : dumpsArr (JsonArr.cons h t) ++ ']' :: rest =
        ',' :: (' ' :: (dumpsVal h ++ (dumpsArr t ++ ']' :: rest))) := by
      show (',' :: ' ' :: dumpsVal h ++ dumpsArr t) ++ ']' :: rest = _
      simp [List.cons_append, List.append_assoc]
    rw [hshape, parseArrRest_comma, parseVal_space g
      (dumpsVal h ++ (dumpsArr t ++ ']' :: rest))]
    simp only [parseVal_dumps h g (dumpsArr t ++ ']' :: rest) (by omega)
        (numStop_dumpsArr t rest),
      parseArrRest_dumps t g rest (by omega)]

theorem parseObjRest_dumps (o : JsonObj) : ∀ (fuel : Nat) (rest : PyStr),
    (dumpsObj o).length < fuel →
    parseObjRest fuel (dumpsObj o ++ '\x7d' :: rest) = some (o, rest) := by
  cases o with
  | nil =>
    intro fuel rest hf
    obtain ⟨g, rfl⟩ : ∃ g, fuel = g + 1 := ⟨fuel - 1, by omega⟩
    show parseObjRest (g + 1) ('\x7d' :: rest) = some (JsonObj.nil, rest)
    rw [parseObjRest_rbrace]
  | cons k v t =>
    intro fuel rest hf
    have hlen : (dumpsObj (JsonObj.cons k v t)).length =
        (strDumps k).length + (dumpsVal v).length + (dumpsObj t).length + 4 := by
      show (',' :: ' ' :: strDumps k ++ ':' :: ' ' :: dumpsVal v ++ dumpsObj t).length = _
      simp [List.length_append]
      omega
    rw [hlen] at hf
    obtain ⟨g, rfl⟩ : ∃ g, fuel = g + 1 := ⟨fuel - 1, by omega⟩
    have hshape : dumpsObj (JsonObj.cons k v t) ++ '\x7d' :: rest =
        ',' :: ' ' :: (strDumps k ++ ':' :: ' ' ::
          (dumpsVal v ++ (dumpsObj t ++ '\x7d' :: rest))) := by
      show (',' :: ' ' :: strDumps k ++ ':' :: ' ' :: dumpsVal v ++ dumpsObj t) ++
        '\x7d' :: rest = _
      simp [List.cons_append, List.append_assoc]
    rw [hshape, parseObjRest_entry g k (dumpsVal v ++ (dumpsObj t ++ '\x7d' :: rest))]
    rw [parseVal_space g (dumpsVal v ++ (dumpsObj t ++ '\x7d' :: rest))]
    simp only [parseVal_dumps v g (dumpsObj t ++ '\x7d' :: rest) (by omega)
        (numStop_dumpsObj t rest),
      parseObjRest_dumps t g rest (by omega)]

end

/-- The serializer/parser round trip: `json.loads(json.dumps(v)) == v`. -/
theorem loads_dumps (v : Json) : loads (dumpsVal v) = some v := by
  rw [loads]
  have h := parseVal_dumps v ((dumpsVal v).length + 1) [] (by omega) trivial
  rw [List.append_nil] at h
  rw [h]
  rfl

theorem hex4_ascii (n : Nat) : ∀ c ∈ hex4 n, c.toNat < 128 := by
  intro c hc
  simp only [hex4, List.mem_cons, List.not_mem_nil, or_false] at hc
  have hh : ∀ m, m < 16 → (hexChar m).toNat < 128 := fun m hm =>
    (by decide : ∀ x ∈ hexDigits, x.toNat < 128) _ (hexChar_mem m hm)
  rcases hc with rfl | rfl | rfl | rfl <;> exact hh _ (by omega)

theorem escapeChar_ascii (c : Char) : ∀ x ∈ escapeChar c, x.toNat < 128 := by
  intro x hx
  rw [escapeChar] at hx
  split_ifs at hx with h1 h2 h3 h4 h5 h6 h7 h8 h9
  · simp only [List.mem_cons, List.not_mem_nil, or_false] at hx
    rcases hx with rfl | rfl <;> decide
  · simp only [List.mem_cons, List.not_mem_nil, or_false] at hx
    rcases hx with rfl | rfl <;> decide
  · simp only [List.mem_cons, List.not_mem_nil, or_false] at hx
    rcases hx with rfl | rfl <;> decide
  · simp only [List.mem_cons, List.not_mem_nil, or_false] at hx
    rcases hx with rfl | rfl <;> decide
  · simp only [List.mem_cons, List.not_mem_nil, or_false] at hx
    rcases hx with rfl | rfl <;> decide
  · simp only [List.mem_cons, List.not_mem_nil, or_false] at hx
    rcases hx with rfl | rfl <;> decide
  · simp only [List.mem_cons, List.not_mem_nil, or_false] at hx
    rcases hx with rfl | rfl <;> decide
  · rcases List.mem_cons.mp hx with rfl | hx
    · decide
    · rcases List.mem_cons.mp hx with rfl | hx
      · decide
      · exact hex4_ascii c.toNat x hx
  · have hu : ∀ m, x ∈ '\\' :: 'u' :: hex4 m → x.toNat < 128 := by
      intro m hm
      rcases List.mem_cons.mp hm with rfl | hm
      · decide
      · rcases List.mem_cons.mp hm with rfl | hm
        · decide
        · exact hex4_ascii m x hm
    rcases List.mem_append.mp hx with hx | hx
    · exact hu _ hx
    · exact hu _ hx
  · rcases List.mem_cons.mp hx with rfl | hx
    · omega
    · exact absurd hx (List.not_mem_nil x)

theorem escapeStr_ascii (s : PyStr) : ∀ x ∈ escapeStr s, x.toNat < 128 := by
  induction s with
  | nil => intro x hx; simp [escapeStr] at hx
  | cons c t ih =>
    intro x hx
    rw [show escapeStr (c :: t) = escapeChar c ++ escapeStr t from rfl] at hx
    rcases List.mem_append.mp hx with h | h
    · exact escapeChar_ascii c x h
    · exact ih x h

theorem strDumps_ascii (s : PyStr) : ∀ x ∈ strDumps s, x.toNat < 128 := by
  intro x hx
  rw [strDumps] at hx
  rcases List.mem_append.mp hx with hx | hx
  · rcases List.mem_cons.mp hx with rfl | hx
    · decide
    · exact escapeStr_ascii s x hx
  · rcases List.mem_cons.mp hx with rfl | hx
    · decide
    · exact absurd hx (List.not_mem_nil x)

theorem intDec_ascii (n : Int) : ∀ x ∈ intDec n, x.toNat < 128 := by
  intro x hx
  have hdig : ∀ m : Nat, ∀ y ∈ natDec m, y.toNat < 128 := fun m y hy =>
    (by decide : ∀ z ∈ decDigits, z.toNat < 128) y (natDec_digits m y hy)
  rw [intDec] at hx
  split_ifs at hx
  · simp only [List.mem_cons] at hx
    rcases hx with rfl | hx
    · decide
    · exact hdig _ x hx
  · exact hdig _ x hx

mutual

theorem dumpsVal_ascii (v : Json) : ∀ x ∈ dumpsVal v, x.toNat < 128 := by
  cases v with
  | null =>
    intro x hx
    have hx2 : x ∈ ['n', 'u', 'l', 'l'] := hx
    fin_cases hx2 <;> decide
  | bool b =>
    cases b with
    | true =>
      intro x hx
      have hx2 : x ∈ ['t', 'r', 'u', 'e'] := hx
      fin_cases hx2 <;> decide
    | false =>
      intro x hx
      have hx2 : x ∈ ['f', 'a', 'l', 's', 'e'] := hx
      fin_cases hx2 <;> decide
  | int n => exact intDec_ascii n
  | str s => exact strDumps_ascii s
  | arr a =>
    cases a with
    | nil =>
      intro x hx
      have hx2 : x ∈ ['[', ']'] := hx
      fin_cases hx2 <;> decide
    | cons h t =>
      intro x hx
      simp only [dumpsVal] at hx
      rcases List.mem_append.mp hx with hx | hx
      · rcases List.mem_cons.mp hx with rfl | hx
        · decide
        · rcases List.mem_append.mp hx with hx | hx
          · exact dumpsVal_ascii h x hx
          · exact dumpsArr_ascii t x hx
      · rcases List.mem_cons.mp hx with rfl | hx
        · decide
        · exact absurd hx (List.not_mem_nil x)
  | obj o =>
    cases o with
    | nil =>
      intro x hx
      have hx2 : x ∈ ['\x7b', '\x7d'] := hx
      fin_cases hx2 <;> decide
    | cons k v t =>
      intro x hx
      simp only [dumpsVal] at hx
      rcases List.mem_append.mp hx with hx | hx
      · rcases List.mem_cons.mp hx with rfl | hx
        · decide
        · rcases List.mem_append.mp hx with hx | hx
          · rcases List.mem_append.mp hx with hx | hx
            · exact strDumps_ascii k x hx
            · rcases List.mem_cons.mp hx with rfl | hx
              · decide
              · rcases List.mem_cons.mp hx with rfl | hx
                · decide
                · exact dumpsVal_ascii v x hx
          · exact dumpsObj_ascii t x hx
      · rcases List.mem_cons.mp hx with rfl | hx
        · decide
        · exact absurd hx (List.not_mem_nil x)

theorem dumpsArr_ascii (a : JsonArr) : ∀ x ∈ dumpsArr a, x.toNat < 128 := by
  cases a with
  | nil =>
    intro x hx
    exact absurd (show x ∈ ([] : PyStr) from hx) (List.not_mem_nil x)
  | cons h t =>
    intro x hx
    simp only [dumpsArr] at hx
    rcases List.mem_append.mp hx with hx | hx
    · rcases List.mem_cons.mp hx with rfl | hx
      · decide
      · rcases List.mem_cons.mp hx with rfl | hx
        · decide
        · exact dumpsVal_ascii h x hx
    · exact dumpsArr_ascii t x hx

theorem dumpsObj_ascii (o : JsonObj) : ∀ x ∈ dumpsObj o, x.toNat < 128 := by
  cases o with
  | nil =>
    intro x hx
    exact absurd (show x ∈ ([] : PyStr) from hx) (List.not_mem_nil x)
  | cons k v t =>
    intro x hx
    simp only [dumpsObj] at hx
    rcases List.mem_append.mp hx with hx | hx
    · rcases List.mem_cons.mp hx with rfl | hx
      · decide
      · rcases List.mem_cons.mp hx with rfl | hx
        · decide
        · rcases List.mem_append.mp hx with hx | hx
          · exact strDumps_ascii k x hx
          · rcases List.mem_cons.mp hx with rfl | hx
            · decide
            · rcases List.mem_cons.mp hx with rfl | hx
              · decide
              · exact dumpsVal_ascii v x hx
    · exact dumpsObj_ascii t x hx

end

theorem utf8EncodeChar_ascii (c : Char) (h : c.toNat < 128) :
    utf8EncodeChar c = [c.toNat] := by
  simp only [utf8EncodeChar]
  rw [if_pos h]

theorem utf8Encode_ascii_map (s : PyStr) (h : ∀ c ∈ s, c.toNat < 128) :
    utf8Encode s = s.map Char.toNat := by
  induction s with
  | nil => rfl
  | cons c t ih =>
    rw [show utf8Encode (c :: t) = utf8EncodeChar c ++ utf8Encode t from rfl,
      utf8EncodeChar_ascii c (h c (List.mem_cons_self c t)),
      ih (fun x hx => h x (List.mem_cons_of_mem c hx)), List.map_cons]
    rfl

theorem utf8DecodeF_ascii (f : Nat) : ∀ (s : PyStr), (∀ c ∈ s, c.toNat < 128) →
    s.length < f → utf8DecodeF f (s.map Char.toNat) = some s := by
  induction f with
  | zero => intro s _ hl; omega
  | succ g ih =>
    intro s hc hl
    cases s with
    | nil => rfl
    | cons c t =>
      rw [List.map_cons]
      have hb : c.toNat < 0x80 := hc c (List.mem_cons_self c t)
      simp only [utf8DecodeF]
      rw [if_pos hb, ih t (fun x hx => hc x (List.mem_cons_of_mem c hx))
        (by simp only [List.length_cons] at hl; omega)]
      simp [Char.ofNat_toNat]

/-- Encode/decode round trip on ASCII strings (`dumps` output is pure
ASCII under `ensure_ascii`). -/
theorem utf8Decode_encode (s : PyStr) (h : ∀ c ∈ s, c.toNat < 128) :
    utf8Decode (utf8Encode s) = some s := by
  rw [utf8Encode_ascii_map s h, utf8Decode]
  exact utf8DecodeF_ascii _ s h (by simp)

/-- After a successful mock file upload, the blob is stored in the
directory under the returned CID (the sidecar write cannot shadow it,
since the CID never equals `metadata.json`). -/
theorem upload_file_dir_lookup (st : MockIPFSClient) (fs : FS) (p : PyStr)
    (nm : Option PyStr) (data : Bytes) (h : alookup p fs = some data) :
    alookup (computeHash data) ((st.upload_file fs p nm).2).dir = some data := by
  simp only [MockIPFSClient.upload_file, h, MockIPFSClient.saveMetadata]
  rw [alookup_ainsert, if_neg (fun hh => computeHash_ne_metadata data hh.symm),
    alookup_ainsert_self]

/-- After a mock JSON upload, the serialized bytes are stored in the
directory under the returned CID. -/
theorem upload_json_dir_lookup (st : MockIPFSClient) (d : Json) (jn : PyStr) :
    alookup (computeHash (utf8Encode (dumpsVal d)))
      ((st.upload_json d jn).2).dir = some (utf8Encode (dumpsVal d)) := by
  simp only [MockIPFSClient.upload_json, MockIPFSClient.saveMetadata]
  rw [alookup_ainsert, if_neg (fun hh => computeHash_ne_metadata _ hh.symm),
    alookup_ainsert_self]

/-- `download_file` on a CID whose blob is present copies exactly those
bytes to the output path and reports success. -/
theorem mock_download_file_found (st : MockIPFSClient) (fs : FS) (cid out : PyStr)
    (b : Bytes) (hn : normalizeCid cid = cid) (hdir : alookup cid st.dir = some b) :
    st.download_file fs cid out = (true, ainsert out b fs) := by
  simp only [MockIPFSClient.download_file, hn, hdir]

/-- `download_json` on a CID whose blob is the UTF-8 encoding of
`json.dumps(d)` decodes and parses back to exactly `d`. -/
theorem mock_download_json_dumps (st : MockIPFSClient) (cid : PyStr) (d : Json)
    (hn : normalizeCid cid = cid)
    (hdir : alookup cid st.dir = some (utf8Encode (dumpsVal d))) :
    st.download_json cid = .ok (some d) := by
  simp only [MockIPFSClient.download_json, hn, hdir,
    utf8Decode_encode (dumpsVal d) (dumpsVal_ascii d), loads_dumps d]

/-- C5: mock round trip.  Uploading a byte payload through the mock
backend and downloading the returned CID writes exactly the uploaded
bytes to the output path (so `download(upload(P)) == P`), and uploading a
JSON document then downloading it as JSON returns an equal document. -/
theorem mock_roundtrip (st : MockIPFSClient) (fs fs2 : FS) (p out : PyStr)
    (nm : Option PyStr) (data : Bytes) (d : Json) (jn : PyStr)
    (h : alookup p fs = some data) :
    ((st.upload_file fs p nm).1 = some (computeHash data) ∧
      (st.upload_file fs p nm).2.download_file fs2 (computeHash data) out =
        (true, ainsert out data fs2)) ∧
    ((st.upload_json d jn).1 = some (computeHash (utf8Encode (dumpsVal d))) ∧
      (st.upload_json d jn).2.download_json (computeHash (utf8Encode (dumpsVal d))) =
        .ok (some d)) := by
  refine ⟨⟨?_, ?_⟩, ?_, ?_⟩
  · simp [MockIPFSClient.upload_file, h]
  · exact mock_download_file_found _ fs2 _ out data (normalizeCid_computeHash data)
      (upload_file_dir_lookup st fs p nm data h)
  · simp [MockIPFSClient.upload_json]
  · exact mock_download_json_dumps _ _ d (normalizeCid_computeHash _)
      (upload_json_dir_lookup st d jn)

/-- C5 witness: the round trip evaluated at a concrete byte payload and a
concrete one-entry JSON object over the empty mock store. -/
theorem mock_roundtrip_witness :
    alookup "f".data [("f".data, [1, 2, 3])] = some [1, 2, 3] ∧
    (((mockEmpty.upload_file [("f".data, [1, 2, 3])] "f".data none).1 =
        some (computeHash [1, 2, 3]) ∧
      (mockEmpty.upload_file [("f".data, [1, 2, 3])] "f".data none).2.download_file []
          (computeHash [1, 2, 3]) "o".data = (true, ainsert "o".data [1, 2, 3] [])) ∧
     ((mockEmpty.upload_json (Json.obj (.cons "a".data (.int 1) .nil)) "m".data).1 =
        some (computeHash (utf8Encode (dumpsVal (Json.obj (.cons "a".data (.int 1) .nil))))) ∧
      (mockEmpty.upload_json (Json.obj (.cons "a".data (.int 1) .nil)) "m".data).2.download_json
          (computeHash (utf8Encode (dumpsVal (Json.obj (.cons "a".data (.int 1) .nil))))) =
        .ok (some (Json.obj (.cons "a".data (.int 1) .nil))))) :=
  ⟨by decide,
    mock_roundtrip mockEmpty [("f".data, [1, 2, 3])] [] "f".data "o".data none
      [1, 2, 3] (Json.obj (.cons "a".data (.int 1) .nil)) "m".data (by decide)⟩

end BC
